import Mathlib

/-!
Verification of the daplug task-scheduling and resumable-execution engine.

This file shallowly embeds the core scheduling code of the repository
(`skills/sprint/scripts/sprint.py` and
`skills/prompt-executor/scripts/executor.py`) in Lean 4 and proves the
stated properties of the specification against it.

Conventions used throughout:
* Python strings are embedded as Lean `String` (or `List Char` where
  character-level scanning is needed); Python's lexicographic string order
  coincides with Lean's `String` order (both compare code points).
* Python dicts keyed by strings are embedded as association lists
  (`List (String × _)`), with `List.lookup` playing the role of `dict.get`
  (keys are unique in every dict the code builds).
* File-system and subprocess effects are threaded as explicit oracle
  parameters, so every function is a pure, executable Lean definition.
-/

/-! ### A kernel-computable decision procedure for the `String` order

Lean's built-in `String.decidableLE` is defined through `String.ltb` on
iterators and does not reduce in the kernel, so witnesses could not be
checked with `decide`.  We therefore give an equivalent character-list
comparator and use it as the `DecidableRel` instance for sorting.
Python's `sorted` on `str` compares code points lexicographically, exactly
this order. -/

def lexLe : List Char → List Char → Bool
  | [], _ => true
  | _ :: _, [] => false
  | a :: as, b :: bs => if a < b then true else if b < a then false else lexLe as bs

theorem lexLe_iff (as bs : List Char) : lexLe as bs = true ↔ as ≤ bs := by
  induction as generalizing bs with
  | nil =>
    cases bs with
    | nil => simp [lexLe]
    | cons b bs => simp [lexLe, List.nil_le]
  | cons a as ih =>
    cases bs with
    | nil =>
      simp only [lexLe, le_iff_lt_or_eq]
      constructor
      · intro h; cases h
      · rintro (h | h)
        · exact absurd h (by intro hlt; cases hlt)
        · cases h
    | cons b bs =>
      rw [← not_lt]
      show (if a < b then true else if b < a then false else lexLe as bs) = true ↔
        ¬ List.Lex (· < ·) (b :: bs) (a :: as)
      rcases lt_trichotomy a b with h | h | h
      · simp only [h, if_pos, true_iff]
        intro hlex
        cases hlex with
        | rel h' => exact absurd h (asymm h')
        | cons h' => exact absurd h (lt_irrefl _)
      · subst h
        simp only [lt_irrefl, if_neg, not_false_iff, ite_self]
        rw [ih bs, ← not_lt]
        constructor
        · intro hn hlex
          cases hlex with
          | rel h' => exact absurd h' (lt_irrefl _)
          | cons h' => exact hn h'
        · intro hn hlex
          exact hn (List.Lex.cons hlex)
      · rw [if_neg (asymm h), if_pos h]
        constructor
        · intro hc; cases hc
        · intro hn; exact absurd (List.Lex.rel h) hn

def strLeb (a b : String) : Bool := lexLe a.data b.data

theorem strLeb_iff (a b : String) : strLeb a b = true ↔ a ≤ b := by
  rw [String.le_iff_toList_le]
  exact lexLe_iff a.data b.data

/-- Kernel-computable decidability of `· ≤ ·` on `String`, used for sorting. -/
def strDecLE : DecidableRel ((· ≤ ·) : String → String → Prop) := fun a b =>
  decidable_of_iff (strLeb a b = true) (strLeb_iff a b)

/-- Embedding of Python's `sorted` on a list of strings (the inputs sorted in
the scheduler are duplicate-free, for which any stable ascending sort agrees
with insertion sort). -/
def sortStr (l : List String) : List String :=
  @List.insertionSort String (· ≤ ·) strDecLE l

theorem sortStr_perm (l : List String) : List.Perm (sortStr l) l :=
  @List.perm_insertionSort String (· ≤ ·) strDecLE l

theorem sortStr_sorted (l : List String) : List.Sorted (· ≤ ·) (sortStr l) :=
  @List.sorted_insertionSort String (· ≤ ·) strDecLE _ _ l

/-! ### Phase Leveler: `_topo_phases` (sprint.py lines 853-871)

```python
def _topo_phases(nodes, deps):
    remaining = set(nodes)
    incoming = {n: set(deps.get(n, [])) for n in nodes}
    phases = []
    while remaining:
        ready = sorted([n for n in remaining if not (incoming.get(n) or set())])
        if not ready:
            break  # cycle or missing deps
        phases.append(ready)
        for n in ready:
            remaining.remove(n)
        for n in remaining:
            incoming[n] = set(incoming.get(n, set())) - set(ready)
    leftovers = sorted(remaining)
    return phases, leftovers
```

`remaining` is embedded as a duplicate-free list (`set(nodes)` =
`nodes.dedup`), `incoming` as a function `String → List String` (only
queried on members of `remaining`; set-emptiness and set-difference are
order- and multiplicity-insensitive, so a list-valued function is an exact
model).  The `while` loop is driven by fuel `= remaining.length`: each
productive round removes at least one node, so the fuel never runs out
before the loop's own exit conditions fire. -/

def topoLoop : Nat → List String → (String → List String) →
    List (List String) × List String
  | 0, remaining, _ => ([], sortStr remaining)
  | fuel + 1, remaining, incoming =>
    if remaining.isEmpty then ([], [])
    else
      let ready := sortStr (remaining.filter fun n => (incoming n).isEmpty)
      if ready.isEmpty then ([], sortStr remaining)
      else
        let rest := topoLoop fuel (remaining.filter fun n => decide (n ∉ ready))
          (fun n => (incoming n).filter fun d => decide (d ∉ ready))
        (ready :: rest.1, rest.2)

/-- Embedding of `_topo_phases`.  `deps` is the dependency dict as a
function (`deps.get(n, [])`). -/
def _topo_phases (nodes : List String) (deps : String → List String) :
    List (List String) × List String :=
  topoLoop nodes.dedup.length nodes.dedup deps

theorem mem_sortStr {a : String} {l : List String} : a ∈ sortStr l ↔ a ∈ l :=
  (sortStr_perm l).mem_iff

/-- The per-phase dependency invariant maintained by the Kahn loop: relative
to the set `done` of nodes already emitted before these phases, every node of
every phase has all its dependencies either in `done` or in a strictly
earlier phase of the list. -/
inductive DepsEarlier (deps : String → List String) :
    List String → List (List String) → Prop
  | nil (done : List String) : DepsEarlier deps done []
  | cons (done : List String) (ph : List String) (phs : List (List String))
      (hph : ∀ n ∈ ph, ∀ d ∈ deps n, d ∈ done)
      (hrest : DepsEarlier deps (done ++ ph) phs) :
      DepsEarlier deps done (ph :: phs)

theorem depsEarlier_take {deps : String → List String} :
    ∀ {done : List String} {phs : List (List String)}, DepsEarlier deps done phs →
      ∀ (k : Nat) (hk : k < phs.length), ∀ n ∈ phs.get ⟨k, hk⟩, ∀ d ∈ deps n,
        d ∈ done ∨ d ∈ (phs.take k).flatten := by
  intro done phs h
  induction h with
  | nil done => intro k hk; simp at hk
  | cons done ph phs hph hrest ih =>
    intro k hk n hn d hd
    cases k with
    | zero =>
      exact Or.inl (hph n hn d hd)
    | succ k =>
      have hk' : k < phs.length := by simpa using hk
      have := ih k hk' n (by simpa using hn) d hd
      rcases this with hmem | hmem
      · rcases List.mem_append.mp hmem with h1 | h1
        · exact Or.inl h1
        · refine Or.inr ?_
          rw [List.take_succ_cons, List.flatten_cons]
          exact List.mem_append.mpr (Or.inl h1)
      · refine Or.inr ?_
        rw [List.take_succ_cons, List.flatten_cons]
        exact List.mem_append.mpr (Or.inr hmem)

theorem mem_take_flatten_iff (phs : List (List String)) :
    ∀ (k : Nat) (d : String), (d ∈ (phs.take k).flatten ↔
      ∃ j, ∃ hj : j < phs.length, j < k ∧ d ∈ phs.get ⟨j, hj⟩) := by
  induction phs with
  | nil => intro k d; simp
  | cons ph phs ih =>
    intro k d
    cases k with
    | zero => simp
    | succ k =>
      simp only [List.take_succ_cons, List.flatten_cons, List.mem_append, ih k d]
      constructor
      · rintro (hd | ⟨j, hj, hjk, hmem⟩)
        · exact ⟨0, by simp, Nat.succ_pos _, by simpa using hd⟩
        · exact ⟨j + 1, by simpa using hj, by omega, by simpa using hmem⟩
      · rintro ⟨j, hj, hjk, hmem⟩
        cases j with
        | zero => exact Or.inl (by simpa using hmem)
        | succ j =>
          exact Or.inr ⟨j, by simpa using hj, by omega, by simpa using hmem⟩

theorem mem_flatten_iff_get (phs : List (List String)) (d : String) :
    d ∈ phs.flatten ↔ ∃ j, ∃ hj : j < phs.length, d ∈ phs.get ⟨j, hj⟩ := by
  rw [List.mem_flatten]
  constructor
  · rintro ⟨l, hl, hd⟩
    rcases List.mem_iff_get.mp hl with ⟨⟨j, hj⟩, rfl⟩
    exact ⟨j, hj, hd⟩
  · rintro ⟨j, hj, hd⟩
    exact ⟨phs.get ⟨j, hj⟩, List.get_mem phs j hj, hd⟩

/-- Master invariant of the Kahn loop `topoLoop`.  `done` abstracts the
nodes emitted before this call (`incoming n` must equal the dependencies of
`n` not yet in `done`). -/
theorem topoLoop_spec (deps : String → List String) :
    ∀ (fuel : Nat) (remaining : List String) (incoming : String → List String)
      (done : List String),
      remaining.Nodup →
      remaining.length ≤ fuel →
      (∀ n ∈ remaining, ∀ d, d ∈ incoming n ↔ (d ∈ deps n ∧ d ∉ done)) →
      List.Perm ((topoLoop fuel remaining incoming).1.flatten ++
        (topoLoop fuel remaining incoming).2) remaining ∧
      (∀ ph ∈ (topoLoop fuel remaining incoming).1, List.Sorted (· ≤ ·) ph) ∧
      List.Sorted (· ≤ ·) (topoLoop fuel remaining incoming).2 ∧
      DepsEarlier deps done (topoLoop fuel remaining incoming).1 ∧
      (∀ n ∈ (topoLoop fuel remaining incoming).2, ∃ d ∈ deps n,
        d ∉ done ∧ d ∉ (topoLoop fuel remaining incoming).1.flatten) := by
  intro fuel
  induction fuel with
  | zero =>
    intro remaining incoming done _ hlen _
    have : remaining = [] := by
      cases remaining with
      | nil => rfl
      | cons a l => simp at hlen
    subst this
    refine ⟨by simp [topoLoop, sortStr, List.insertionSort], ?_, ?_, DepsEarlier.nil done, ?_⟩
    · intro ph hph; simp [topoLoop, sortStr, List.insertionSort] at hph
    · simp [topoLoop, sortStr, List.insertionSort]
    · intro n hn; simp [topoLoop, sortStr, List.insertionSort] at hn
  | succ fuel ih =>
    intro remaining incoming done hnd hlen hinc
    by_cases hrem : remaining.isEmpty
    · have : remaining = [] := List.isEmpty_iff.mp hrem
      subst this
      refine ⟨by simp [topoLoop], ?_, ?_, ?_, ?_⟩
      · intro ph hph; simp [topoLoop] at hph
      · simp [topoLoop]
      · simp only [topoLoop, List.isEmpty_nil, if_pos]; exact DepsEarlier.nil done
      · intro n hn; simp [topoLoop] at hn
    · by_cases hready : (sortStr (remaining.filter fun n => (incoming n).isEmpty)).isEmpty
      · -- break: no ready node
        have hres : topoLoop (fuel + 1) remaining incoming = ([], sortStr remaining) := by
          simp only [topoLoop, hrem, Bool.false_eq_true, if_false]
          rw [if_pos hready]
        rw [hres]
        have hfilter : (remaining.filter fun n => (incoming n).isEmpty) = [] := by
          have := List.isEmpty_iff.mp hready
          have hperm := sortStr_perm (remaining.filter fun n => (incoming n).isEmpty)
          rw [this] at hperm
          exact (List.Perm.nil_eq hperm).symm
        refine ⟨by simpa using sortStr_perm remaining, ?_, sortStr_sorted remaining,
          DepsEarlier.nil done, ?_⟩
        · intro ph hph; simp at hph
        · intro n hn
          have hn' : n ∈ remaining := mem_sortStr.mp hn
          have hne : ¬((incoming n).isEmpty = true) := by
            intro hemp
            have : n ∈ (remaining.filter fun n => (incoming n).isEmpty) :=
              List.mem_filter.mpr ⟨hn', hemp⟩
            rw [hfilter] at this
            simp at this
          have : incoming n ≠ [] := by
            intro h; rw [h] at hne; simp at hne
          rcases List.exists_mem_of_ne_nil _ this with ⟨d, hd⟩
          rcases (hinc n hn' d).mp hd with ⟨hdd, hdone⟩
          exact ⟨d, hdd, hdone, by simp⟩
      · -- productive round
        set ready := sortStr (remaining.filter fun n => (incoming n).isEmpty) with hready_def
        set remaining' := remaining.filter (fun n => decide (n ∉ ready)) with hrem_def
        set incoming' := (fun n => (incoming n).filter fun d => decide (d ∉ ready))
          with hinc_def
        have hres : topoLoop (fuel + 1) remaining incoming =
            (ready :: (topoLoop fuel remaining' incoming').1,
              (topoLoop fuel remaining' incoming').2) := by
          simp only [topoLoop, hrem, Bool.false_eq_true, if_false]
          rw [if_neg hready]
        have hmem_ready : ∀ n, n ∈ ready ↔ (n ∈ remaining ∧ (incoming n).isEmpty) := by
          intro n
          rw [hready_def, mem_sortStr, List.mem_filter]
        -- recursive call hypotheses
        have hnd' : remaining'.Nodup := hnd.filter _
        have hlen' : remaining'.length ≤ fuel := by
          have hex : ∃ x ∈ remaining, ¬((fun n => decide (n ∉ ready)) x = true) := by
            have : ready ≠ [] := by
              intro h; rw [h] at hready; simp at hready
            rcases List.exists_mem_of_ne_nil _ this with ⟨a, ha⟩
            have ha' := (hmem_ready a).mp ha
            exact ⟨a, ha'.1, by simpa using ha⟩
          have := List.length_filter_lt_length_iff_exists.mpr hex
          rw [← hrem_def] at this
          omega
        have hinc' : ∀ n ∈ remaining', ∀ d,
            d ∈ incoming' n ↔ (d ∈ deps n ∧ d ∉ done ++ ready) := by
          intro n hn d
          have hn' : n ∈ remaining := (List.mem_filter.mp hn).1
          rw [hinc_def]
          simp only [List.mem_filter, decide_eq_true_eq, List.mem_append]
          rw [hinc n hn' d]
          tauto
        obtain ⟨ihperm, ihsorted, ihlo, ihearly, ihbreak⟩ :=
          ih remaining' incoming' (done ++ ready) hnd' hlen' hinc'
        rw [hres]
        refine ⟨?_, ?_, ihlo, ?_, ?_⟩
        · -- permutation
          simp only [List.flatten_cons, List.append_assoc]
          have h1 : List.Perm (ready ++ ((topoLoop fuel remaining' incoming').1.flatten ++
              (topoLoop fuel remaining' incoming').2)) (ready ++ remaining') :=
            List.Perm.append_left ready ihperm
          refine h1.trans ?_
          have h2 : remaining' = remaining.filter
              (fun n => !(fun n => (incoming n).isEmpty) n) := by
            rw [hrem_def]
            apply List.filter_congr
            intro x hx
            simp only [decide_eq_true_eq, Bool.not_eq_true']
            by_cases hxr : x ∈ ready
            · simp [hxr, ((hmem_ready x).mp hxr).2]
            · have : ¬((incoming x).isEmpty = true) := by
                intro hemp
                exact hxr ((hmem_ready x).mpr ⟨hx, hemp⟩)
              simp [hxr, this]
          have h3 : List.Perm (ready ++ remaining')
              ((remaining.filter fun n => (incoming n).isEmpty) ++ remaining') :=
            List.Perm.append_right remaining' (sortStr_perm _)
          refine h3.trans ?_
          rw [h2]
          exact List.filter_append_perm _ remaining
        · intro ph hph
          rcases List.mem_cons.mp hph with rfl | hph'
          · exact sortStr_sorted _
          · exact ihsorted ph hph'
        · refine DepsEarlier.cons done ready _ ?_ ihearly
          intro n hn d hd
          rcases (hmem_ready n).mp hn with ⟨hnr, hemp⟩
          by_contra hdone
          have : d ∈ incoming n := (hinc n hnr d).mpr ⟨hd, hdone⟩
          rw [List.isEmpty_iff.mp hemp] at this
          simp at this
        · intro n hn
          rcases ihbreak n hn with ⟨d, hd, hdone, hflat⟩
          refine ⟨d, hd, ?_, ?_⟩
          · intro h; exact hdone (List.mem_append.mpr (Or.inl h))
          · simp only [List.flatten_cons, List.mem_append]
            rintro (h | h)
            · exact hdone (List.mem_append.mpr (Or.inr h))
            · exact hflat h

/-! ### The dependency relation and cycle-reachability facts -/

/-- `depRel deps a b` holds when `a` is a direct dependency of `b` under the
dependency map `deps`; `Relation.TransGen (depRel deps) c n` therefore says
that `n` transitively depends on `c`. -/
def depRel (deps : String → List String) (a b : String) : Prop := a ∈ deps b

/-- Finite-descent (pigeonhole) argument: in a finite set `S` in which every
node has a dependency inside `S`, every node transitively depends on a node
that lies on a dependency cycle. -/
theorem exists_cycle_reach (deps : String → List String) (S : List String)
    (hstep : ∀ n ∈ S, ∃ d ∈ deps n, d ∈ S) :
    ∀ n ∈ S, ∃ c ∈ S, Relation.TransGen (depRel deps) c c ∧
      Relation.ReflTransGen (depRel deps) c n := by
  intro n hn
  have hf : ∀ a : {x // x ∈ S}, ∃ d, d ∈ deps a.1 ∧ d ∈ S := by
    intro a
    rcases hstep a.1 a.2 with ⟨d, hd1, hd2⟩
    exact ⟨d, hd1, hd2⟩
  let f : {x // x ∈ S} → {x // x ∈ S} := fun a => ⟨(hf a).choose, (hf a).choose_spec.2⟩
  have hstep' : ∀ a : {x // x ∈ S}, depRel deps (f a).1 a.1 :=
    fun a => (hf a).choose_spec.1
  let seq : Nat → {x // x ∈ S} := fun i => f^[i] ⟨n, hn⟩
  have hseq_succ : ∀ i, seq (i + 1) = f (seq i) := by
    intro i
    simp only [seq, Function.iterate_succ_apply']
  have hreach : ∀ i, Relation.ReflTransGen (depRel deps) (seq i).1 n := by
    intro i
    induction i with
    | zero => exact Relation.ReflTransGen.refl
    | succ i ihr =>
      refine Relation.ReflTransGen.head ?_ ihr
      rw [hseq_succ]
      exact hstep' (seq i)
  have hdescend : ∀ i k, Relation.TransGen (depRel deps) (seq (i + k + 1)).1 (seq i).1 := by
    intro i k
    induction k with
    | zero =>
      rw [hseq_succ]
      exact Relation.TransGen.single (hstep' (seq i))
    | succ k ihd =>
      have hstep'' : depRel deps (seq (i + k + 1 + 1)).1 (seq (i + k + 1)).1 := by
        rw [hseq_succ (i + k + 1)]
        exact hstep' (seq (i + k + 1))
      have : i + (k + 1) + 1 = i + k + 1 + 1 := by omega
      rw [this]
      exact Relation.TransGen.head hstep'' ihd
  have hSne : 0 < S.length := List.length_pos.mpr (by intro h; rw [h] at hn; simp at hn)
  have hpigeon : ∃ i j : Nat, i ≠ j ∧
      (⟨S.indexOf (seq i).1, List.indexOf_lt_length.mpr (seq i).2⟩ : Fin S.length) =
      ⟨S.indexOf (seq j).1, List.indexOf_lt_length.mpr (seq j).2⟩ :=
    Finite.exists_ne_map_eq_of_infinite _
  rcases hpigeon with ⟨i, j, hij, hfin⟩
  have heq : (seq i).1 = (seq j).1 := by
    have : S.indexOf (seq i).1 = S.indexOf (seq j).1 := congrArg Fin.val hfin
    exact (List.indexOf_inj (seq i).2 (seq j).2).mp this
  rcases hij.lt_or_lt with hlt | hlt
  · refine ⟨(seq i).1, (seq i).2, ?_, hreach i⟩
    have := hdescend i (j - i - 1)
    have hj : i + (j - i - 1) + 1 = j := by omega
    rw [hj] at this
    rw [← heq] at this
    exact this
  · refine ⟨(seq j).1, (seq j).2, ?_, hreach j⟩
    have := hdescend j (i - j - 1)
    have hi : j + (i - j - 1) + 1 = i := by omega
    rw [hi] at this
    rw [heq] at this
    exact this

/-- Strong-induction engine for "never phased": if every `P`-node either has
a dependency outside the node set or a dependency that again satisfies `P`,
then no `P`-node can appear in any phase of a leveling whose phases are
contained in the node set and satisfy the earlier-phase property. -/
theorem not_phased_of_progress (deps : String → List String) (nodes : List String)
    (phases : List (List String))
    (hsub : ∀ x ∈ phases.flatten, x ∈ nodes)
    (htake : ∀ (k : Nat) (hk : k < phases.length), ∀ n ∈ phases.get ⟨k, hk⟩,
      ∀ d ∈ deps n, d ∈ (phases.take k).flatten)
    (P : String → Prop)
    (hstep : ∀ n, P n → (∃ d ∈ deps n, d ∉ nodes) ∨ (∃ d ∈ deps n, P d)) :
    ∀ n, P n → n ∉ phases.flatten := by
  have key : ∀ k (hk : k < phases.length), ∀ n, P n → n ∉ phases.get ⟨k, hk⟩ := by
    intro k
    induction k using Nat.strong_induction_on with
    | _ k ihk =>
      intro hk n hPn hmem
      rcases hstep n hPn with ⟨d, hd, hdn⟩ | ⟨d, hd, hPd⟩
      · have hdt : d ∈ (phases.take k).flatten := htake k hk n hmem d hd
        rcases (mem_take_flatten_iff phases k d).mp hdt with ⟨j, hj, _, hmemj⟩
        exact hdn (hsub d ((mem_flatten_iff_get phases d).mpr ⟨j, hj, hmemj⟩))
      · have hdt : d ∈ (phases.take k).flatten := htake k hk n hmem d hd
        rcases (mem_take_flatten_iff phases k d).mp hdt with ⟨j, hj, hjk, hmemj⟩
        exact ihk j hjk hj d hPd hmemj
  intro n hPn hmem
  rcases (mem_flatten_iff_get phases n).mp hmem with ⟨k, hk, hmemk⟩
  exact key k hk n hPn hmemk

/-! ### Instantiated facts about `_topo_phases` -/

theorem topo_phases_master (nodes : List String) (deps : String → List String) :
    List.Perm ((_topo_phases nodes deps).1.flatten ++ (_topo_phases nodes deps).2)
      nodes.dedup ∧
    (∀ ph ∈ (_topo_phases nodes deps).1, List.Sorted (· ≤ ·) ph) ∧
    List.Sorted (· ≤ ·) (_topo_phases nodes deps).2 ∧
    DepsEarlier deps [] (_topo_phases nodes deps).1 ∧
    (∀ n ∈ (_topo_phases nodes deps).2, ∃ d ∈ deps n,
      d ∉ (_topo_phases nodes deps).1.flatten) := by
  have h := topoLoop_spec deps nodes.dedup.length nodes.dedup deps []
    (List.nodup_dedup nodes) (le_refl _) (by intro n _ d; simp)
  obtain ⟨h1, h2, h3, h4, h5⟩ := h
  refine ⟨h1, h2, h3, h4, ?_⟩
  intro n hn
  rcases h5 n hn with ⟨d, hd, _, hflat⟩
  exact ⟨d, hd, hflat⟩

theorem topo_phases_take (nodes : List String) (deps : String → List String) :
    ∀ (k : Nat) (hk : k < (_topo_phases nodes deps).1.length),
      ∀ n ∈ (_topo_phases nodes deps).1.get ⟨k, hk⟩, ∀ d ∈ deps n,
        d ∈ ((_topo_phases nodes deps).1.take k).flatten := by
  intro k hk n hn d hd
  rcases depsEarlier_take (topo_phases_master nodes deps).2.2.2.1 k hk n hn d hd with h | h
  · simp at h
  · exact h

theorem topo_phases_flatten_sub (nodes : List String) (deps : String → List String) :
    ∀ x ∈ (_topo_phases nodes deps).1.flatten, x ∈ nodes := by
  intro x hx
  have hperm := (topo_phases_master nodes deps).1
  have : x ∈ nodes.dedup := hperm.mem_iff.mp (List.mem_append.mpr (Or.inl hx))
  exact List.mem_dedup.mp this

theorem topo_phases_mem_cases (nodes : List String) (deps : String → List String)
    {x : String} (hx : x ∈ nodes) :
    x ∈ (_topo_phases nodes deps).1.flatten ∨ x ∈ (_topo_phases nodes deps).2 := by
  have hperm := (topo_phases_master nodes deps).1
  have : x ∈ (_topo_phases nodes deps).1.flatten ++ (_topo_phases nodes deps).2 :=
    hperm.mem_iff.mpr (List.mem_dedup.mpr hx)
  exact List.mem_append.mp this

theorem topo_phases_leftover_sub (nodes : List String) (deps : String → List String) :
    ∀ x ∈ (_topo_phases nodes deps).2, x ∈ nodes := by
  intro x hx
  have hperm := (topo_phases_master nodes deps).1
  have : x ∈ nodes.dedup := hperm.mem_iff.mp (List.mem_append.mpr (Or.inr hx))
  exact List.mem_dedup.mp this

/-- Under closure of `deps` inside `nodes`, every leftover node has a
dependency that is again a leftover node. -/
theorem leftover_step (nodes : List String) (deps : String → List String)
    (hclosed : ∀ n ∈ nodes, ∀ d ∈ deps n, d ∈ nodes) :
    ∀ n ∈ (_topo_phases nodes deps).2, ∃ d ∈ deps n, d ∈ (_topo_phases nodes deps).2 := by
  intro n hn
  rcases (topo_phases_master nodes deps).2.2.2.2 n hn with ⟨d, hd, hflat⟩
  have hdn : d ∈ nodes := hclosed n (topo_phases_leftover_sub nodes deps n hn) d hd
  rcases topo_phases_mem_cases nodes deps hdn with h | h
  · exact absurd h hflat
  · exact ⟨d, hd, h⟩

/-- A strictly decreasing measure along dependencies certifies acyclicity
(used to discharge the acyclicity hypothesis on concrete graphs). -/
theorem acyclic_of_measure (deps : String → List String) (nodes : List String)
    (mu : String → Nat)
    (hclosed : ∀ n ∈ nodes, ∀ d ∈ deps n, d ∈ nodes)
    (hdec : ∀ n ∈ nodes, ∀ d ∈ deps n, mu d < mu n) :
    ∀ n ∈ nodes, ¬ Relation.TransGen (depRel deps) n n := by
  have key : ∀ a b, Relation.TransGen (depRel deps) a b → b ∈ nodes →
      a ∈ nodes ∧ mu a < mu b := by
    intro a b h
    induction h with
    | single h => intro hb; exact ⟨hclosed _ hb _ h, hdec _ hb _ h⟩
    | tail _ hbc ih =>
      intro hc
      have hb := hclosed _ hc _ hbc
      have := ih hb
      exact ⟨this.1, lt_trans this.2 (hdec _ hc _ hbc)⟩
  intro n hn hcyc
  exact absurd (key n n hcyc hn).2 (lt_irrefl _)

/-- Example acyclic chain 001 ← 002 ← 003 (spec scenario). -/
def nodes3 : List String := ["001", "002", "003"]

def acy3 : String → List String := fun n =>
  if n = "002" then ["001"] else if n = "003" then ["002"] else []

/-- The two-node cyclic graph of the spec scenario:
001 depends on 002 and 002 depends on 001. -/
def cyc2 : String → List String := fun n =>
  if n = "001" then ["002"] else if n = "002" then ["001"] else []

/-- C1: on an acyclic, closed dependency graph, `_topo_phases` leaves no
residual node, places every input node in exactly one phase, places every
dependency of a phase-`k` node in a strictly earlier phase, sorts each phase
ascending by identifier, and is a deterministic function of its input. -/
theorem topo_phases_acyclic (nodes : List String) (deps : String → List String)
    (hclosed : ∀ n ∈ nodes, ∀ d ∈ deps n, d ∈ nodes)
    (hacyc : ∀ n ∈ nodes, ¬ Relation.TransGen (depRel deps) n n) :
    (_topo_phases nodes deps).2 = [] ∧
    (∀ x, (_topo_phases nodes deps).1.flatten.count x = if x ∈ nodes then 1 else 0) ∧
    (∀ (k : Nat) (hk : k < (_topo_phases nodes deps).1.length),
      ∀ n ∈ (_topo_phases nodes deps).1.get ⟨k, hk⟩, ∀ d ∈ deps n,
        d ∈ ((_topo_phases nodes deps).1.take k).flatten) ∧
    (∀ ph ∈ (_topo_phases nodes deps).1, List.Sorted (· ≤ ·) ph) ∧
    _topo_phases nodes deps = _topo_phases nodes deps := by
  have hlo : (_topo_phases nodes deps).2 = [] := by
    by_contra hne
    rcases List.exists_mem_of_ne_nil _ hne with ⟨n0, hn0⟩
    rcases exists_cycle_reach deps (_topo_phases nodes deps).2
      (leftover_step nodes deps hclosed) n0 hn0 with ⟨c, hcS, hcyc, _⟩
    exact hacyc c (topo_phases_leftover_sub nodes deps c hcS) hcyc
  refine ⟨hlo, ?_, topo_phases_take nodes deps, (topo_phases_master nodes deps).2.1, rfl⟩
  intro x
  have hperm := (topo_phases_master nodes deps).1
  rw [hlo, List.append_nil] at hperm
  rw [hperm.count_eq x, List.count_dedup]

/-- Witness for C1 at the concrete acyclic chain `001 ← 002 ← 003`. -/
theorem topo_phases_acyclic_witness :
    (_topo_phases nodes3 acy3).2 = [] ∧
    _topo_phases nodes3 acy3 = ([["001"], ["002"], ["003"]], []) := by
  have h := topo_phases_acyclic nodes3 acy3 (by decide)
    (acyclic_of_measure acy3 nodes3
      (fun n => if n = "002" then 1 else if n = "003" then 2 else 0)
      (by decide) (by decide))
  exact ⟨h.1, by decide⟩

/-- C2: on a closed graph containing a cycle, `_topo_phases` returns a
non-empty residual equal to exactly the nodes that transitively depend on a
cycle node (cycle nodes included), the emitted phases still satisfy the
strictly-earlier-phase property, and on the two-node cycle
`{001 ↔ 002}` the result is `([], [001, 002])`. -/
theorem topo_phases_cyclic (nodes : List String) (deps : String → List String)
    (hclosed : ∀ n ∈ nodes, ∀ d ∈ deps n, d ∈ nodes)
    (hcyc : ∃ n ∈ nodes, Relation.TransGen (depRel deps) n n) :
    (_topo_phases nodes deps).2 ≠ [] ∧
    (∀ n, (n ∈ (_topo_phases nodes deps).2 ↔ (n ∈ nodes ∧
      ∃ c, Relation.TransGen (depRel deps) c c ∧
        Relation.ReflTransGen (depRel deps) c n))) ∧
    (∀ (k : Nat) (hk : k < (_topo_phases nodes deps).1.length),
      ∀ n ∈ (_topo_phases nodes deps).1.get ⟨k, hk⟩, ∀ d ∈ deps n,
        d ∈ ((_topo_phases nodes deps).1.take k).flatten) ∧
    _topo_phases ["001", "002"] cyc2 = ([], ["001", "002"]) := by
  have hchar : ∀ n, (n ∈ (_topo_phases nodes deps).2 ↔ (n ∈ nodes ∧
      ∃ c, Relation.TransGen (depRel deps) c c ∧
        Relation.ReflTransGen (depRel deps) c n)) := by
    intro n
    constructor
    · intro hn
      refine ⟨topo_phases_leftover_sub nodes deps n hn, ?_⟩
      rcases exists_cycle_reach deps (_topo_phases nodes deps).2
        (leftover_step nodes deps hclosed) n hn with ⟨c, _, hc, hreach⟩
      exact ⟨c, hc, hreach⟩
    · rintro ⟨hn, c, hc, hreach⟩
      have hnot : n ∉ (_topo_phases nodes deps).1.flatten := by
        refine not_phased_of_progress deps nodes (_topo_phases nodes deps).1
          (topo_phases_flatten_sub nodes deps) (topo_phases_take nodes deps)
          (fun m => ∃ c, Relation.TransGen (depRel deps) c c ∧
            Relation.ReflTransGen (depRel deps) c m) ?_ n ⟨c, hc, hreach⟩
        rintro m ⟨c', hc', hreach'⟩
        refine Or.inr ?_
        rcases Relation.ReflTransGen.cases_tail hreach' with heq | ⟨b, hcb, hbm⟩
        · rw [heq]
          rcases Relation.TransGen.tail'_iff.mp hc' with ⟨b, hcb2, hbc⟩
          exact ⟨b, hbc, c', hc', hcb2⟩
        · exact ⟨b, hbm, c', hc', hcb⟩
      rcases topo_phases_mem_cases nodes deps hn with h | h
      · exact absurd h hnot
      · exact h
  refine ⟨?_, hchar, topo_phases_take nodes deps, by decide⟩
  rcases hcyc with ⟨n, hn, hc⟩
  have : n ∈ (_topo_phases nodes deps).2 :=
    (hchar n).mpr ⟨hn, n, hc, Relation.ReflTransGen.refl⟩
  intro hnil
  rw [hnil] at this
  simp at this

/-- Witness for C2 at the two-node cycle `{001 ↔ 002}`. -/
theorem topo_phases_cyclic_witness :
    (_topo_phases ["001", "002"] cyc2).2 ≠ [] ∧
    _topo_phases ["001", "002"] cyc2 = ([], ["001", "002"]) := by
  have hc : Relation.TransGen (depRel cyc2) "002" "002" :=
    Relation.TransGen.tail
      (Relation.TransGen.single (show "002" ∈ cyc2 "001" by decide))
      (show "001" ∈ cyc2 "002" by decide)
  have h := topo_phases_cyclic ["001", "002"] cyc2 (by decide)
    ⟨"002", by decide, hc⟩
  exact ⟨h.1, h.2.2.2⟩

/-! ### `generate_execution_plan` phase construction (sprint.py lines 964-975)

```python
ids = sorted([str(p.get("id")).zfill(3) for p in prompts])
phases, leftovers = _topo_phases(ids, dependencies)
if leftovers:
    phases.append(leftovers)
```
Only the phase-list construction is embedded; the textual plan rendering
below it has no bearing on any claim. -/

def generate_execution_plan_phases (ids : List String)
    (deps : String → List String) : List (List String) :=
  let r := _topo_phases ids deps
  if r.2.isEmpty then r.1 else r.1 ++ [r.2]

/-- C10: a node with a dependency absent from the input node list is never
placed in any phase; it, and every node transitively depending on it, ends
up in the leftovers, which callers (`generate_execution_plan`) append as the
final sequential cycle-fallback phase — a dangling dependency is thus
indistinguishable from a cycle at this interface. -/
theorem topo_phases_dangling (nodes : List String) (deps : String → List String)
    (n d : String) (hn : n ∈ nodes) (hd : d ∈ deps n) (hdn : d ∉ nodes) :
    n ∉ (_topo_phases nodes deps).1.flatten ∧
    n ∈ (_topo_phases nodes deps).2 ∧
    (∀ m, m ∈ nodes → Relation.ReflTransGen (depRel deps) n m →
      m ∉ (_topo_phases nodes deps).1.flatten ∧ m ∈ (_topo_phases nodes deps).2) ∧
    (_topo_phases nodes deps).2 ≠ [] ∧
    generate_execution_plan_phases nodes deps =
      (_topo_phases nodes deps).1 ++ [(_topo_phases nodes deps).2] := by
  have hmain : ∀ m, Relation.ReflTransGen (depRel deps) n m →
      m ∉ (_topo_phases nodes deps).1.flatten := by
    refine not_phased_of_progress deps nodes (_topo_phases nodes deps).1
      (topo_phases_flatten_sub nodes deps) (topo_phases_take nodes deps)
      (fun m => Relation.ReflTransGen (depRel deps) n m) ?_
    intro m hm
    rcases Relation.ReflTransGen.cases_tail hm with heq | ⟨b, hnb, hbm⟩
    · rw [heq]
      exact Or.inl ⟨d, hd, hdn⟩
    · exact Or.inr ⟨b, hbm, hnb⟩
  have hforall : ∀ m, m ∈ nodes → Relation.ReflTransGen (depRel deps) n m →
      m ∉ (_topo_phases nodes deps).1.flatten ∧ m ∈ (_topo_phases nodes deps).2 := by
    intro m hmn hreach
    have hnot := hmain m hreach
    refine ⟨hnot, ?_⟩
    rcases topo_phases_mem_cases nodes deps hmn with h | h
    · exact absurd h hnot
    · exact h
  have hself := hforall n hn Relation.ReflTransGen.refl
  have hne : (_topo_phases nodes deps).2 ≠ [] := by
    intro hnil
    rw [hnil] at hself
    simp at hself
  refine ⟨hself.1, hself.2, hforall, hne, ?_⟩
  rw [generate_execution_plan_phases]
  rw [if_neg (by simpa using hne)]

/-- Graph with a dangling dependency: `002` depends on the unknown node
`999`, and `003` depends on `002`. -/
def dang3 : String → List String := fun n =>
  if n = "002" then ["999"] else if n = "003" then ["002"] else []

/-- Witness for C10: node `002` declares the unknown dependency `999` and
node `003` depends on `002`; both land in the appended fallback phase. -/
theorem topo_phases_dangling_witness :
    ("002" : String) ∈ (_topo_phases ["001", "002", "003"] dang3).2 ∧
    generate_execution_plan_phases ["001", "002", "003"] dang3 =
      [["001"], ["002", "003"]] := by
  have h := topo_phases_dangling ["001", "002", "003"] dang3 "002" "999"
    (by decide) (by decide) (by decide)
  exact ⟨h.2.1, by decide⟩

/-! ### Completion-marker detection: `check_completion_marker`
(executor.py lines 1002-1046)

```python
def check_completion_marker(log_file, marker):
    content = log_file.read_text()
    sentinel_pos = content.find(INSTRUCTIONS_END_SENTINEL)
    if sentinel_pos != -1:
        search_content = content[sentinel_pos + len(INSTRUCTIONS_END_SENTINEL):]
    else:
        protocol_end = content.rfind("</verification_protocol>")
        search_content = content[protocol_end:] if protocol_end != -1 else content
    retry_pattern = r"<verification>\s*NEEDS_RETRY:\s*(.+?)\s*</verification>"
    m = re.search(retry_pattern, search_content, re.IGNORECASE | re.DOTALL)
    if m:
        return False, m.group(1).strip()
    completion_pattern = rf"<verification>\s*{re.escape(marker)}\s*</verification>"
    if re.search(completion_pattern, search_content, re.IGNORECASE):
        return True, None
    return False, None
```

The transcript is embedded as its character list (the file read and the
IOError fallback are outside the pure content logic).  The two fixed regex
patterns are compiled into explicit scanners with Python's backtracking
semantics: a greedy `\s*` followed by a literal starting with a
non-whitespace character is exactly "skip all whitespace, then match the
literal"; the lazy `(.+?)` takes the shortest non-empty capture whose
remainder matches `\s*</verification>`, falling back (when no such capture
exists after a maximal whitespace skip) to handing the last skipped
whitespace character to the capture group. -/

/-- Python regex `\s` (ASCII whitespace classes found in worker logs). -/
def isWs (c : Char) : Bool :=
  c = ' ' || c = '\t' || c = '\n' || c = '\r' ||
    c = Char.ofNat 11 || c = Char.ofNat 12

/-- Case-insensitive "is prefix of" (models `re.IGNORECASE` literal
matching at a position). -/
def ciStarts : List Char → List Char → Bool
  | [], _ => true
  | _ :: _, [] => false
  | p :: ps, c :: cs => (p.toLower = c.toLower) && ciStarts ps cs

/-- `str.find`: index of the first (case-sensitive) occurrence. -/
def strFind : List Char → List Char → Option Nat
  | [], pat => if pat.isPrefixOf ([] : List Char) then some 0 else none
  | c :: t, pat =>
    if pat.isPrefixOf (c :: t) then some 0
    else (strFind t pat).map (· + 1)

/-- `str.rfind`: index of the last (case-sensitive) occurrence. -/
def strRFind : List Char → List Char → Option Nat
  | [], pat => if pat.isPrefixOf ([] : List Char) then some 0 else none
  | c :: t, pat =>
    match strRFind t pat with
    | some i => some (i + 1)
    | none => if pat.isPrefixOf (c :: t) then some 0 else none

def INSTRUCTIONS_END_SENTINEL : List Char := "DAPLUG_INSTRUCTIONS_END".data

def protocolEndTag : List Char := "</verification_protocol>".data

def openTag : List Char := "<verification>".data

def closeTag : List Char := "</verification>".data

def needsRetryTag : List Char := "NEEDS_RETRY:".data

/-- Lazy capture `(.+?)\s*</verification>` at a fixed position: shortest
non-empty prefix whose remainder consists of optional whitespace followed by
the (case-insensitive) closing tag. -/
def findCapture (acc : List Char) : List Char → Option (List Char)
  | [] => none
  | c :: rest =>
    if ciStarts closeTag (rest.dropWhile isWs) then some (acc ++ [c])
    else findCapture (acc ++ [c]) rest

/-- The `\s*(.+?)\s*</verification>` tail of the retry pattern, including
the backtracking of the leading greedy `\s*` when the capture would
otherwise be empty. -/
def retryCapture (cs : List Char) : Option (List Char) :=
  let run := cs.takeWhile isWs
  let rest := cs.dropWhile isWs
  match findCapture [] rest with
  | some r => some r
  | none =>
    if run.isEmpty then none
    else if ciStarts closeTag rest then some [run.getLastD ' '] else none

/-- Attempt the whole retry pattern at a fixed position. -/
def parseRetryAt (cs : List Char) : Option (List Char) :=
  if ciStarts openTag cs then
    let r1 := (cs.drop openTag.length).dropWhile isWs
    if ciStarts needsRetryTag r1 then
      retryCapture (r1.drop needsRetryTag.length)
    else none
  else none

/-- `re.search` of the retry pattern: earliest matching start position. -/
def searchRetry : List Char → Option (List Char)
  | [] => none
  | c :: t =>
    match parseRetryAt (c :: t) with
    | some r => some r
    | none => searchRetry t

/-- The completion pattern `<verification>\s*MARKER\s*</verification>` at a
fixed position (case-insensitive). -/
def completionAt (marker cs : List Char) : Bool :=
  ciStarts openTag cs &&
  (let r1 := (cs.drop openTag.length).dropWhile isWs
   ciStarts marker r1 &&
   (let r2 := (r1.drop marker.length).dropWhile isWs
    ciStarts closeTag r2))

/-- `re.search` of the completion pattern. -/
def searchCompletion (marker : List Char) : List Char → Bool
  | [] => false
  | c :: t => completionAt marker (c :: t) || searchCompletion marker t

/-- Python `str.strip()`. -/
def pyStrip (cs : List Char) : List Char :=
  ((cs.dropWhile isWs).reverse.dropWhile isWs).reverse

/-- The classification applied to the post-sentinel search content. -/
def checkTail (post marker : List Char) : Bool × Option (List Char) :=
  match searchRetry post with
  | some r => (false, some (pyStrip r))
  | none => (searchCompletion marker post, none)

/-- Embedding of `check_completion_marker` on the transcript content. -/
def check_completion_marker (content marker : List Char) :
    Bool × Option (List Char) :=
  let search_content :=
    match strFind content INSTRUCTIONS_END_SENTINEL with
    | some p => content.drop (p + INSTRUCTIONS_END_SENTINEL.length)
    | none =>
      match strRFind content protocolEndTag with
      | some q => content.drop q
      | none => content
  match searchRetry search_content with
  | some r => (false, some (pyStrip r))
  | none => (searchCompletion marker search_content, none)

/-- C3: for a transcript whose first sentinel occurrence splits it as
`pre ++ sentinel ++ post`, classification is a function of `post` alone:
completion-signal text occurring only in `pre` yields not-completed, the
signal occurring after the sentinel (with no retry signal there) yields
completed, and a retry signal after the sentinel forces not-completed with
its reason even if a completion signal appears elsewhere. -/
theorem check_completion_marker_sentinel (pre post marker : List Char)
    (hfirst : strFind (pre ++ INSTRUCTIONS_END_SENTINEL ++ post)
      INSTRUCTIONS_END_SENTINEL = some pre.length) :
    check_completion_marker (pre ++ INSTRUCTIONS_END_SENTINEL ++ post) marker
      = checkTail post marker ∧
    (searchRetry post = none → searchCompletion marker post = false →
      check_completion_marker (pre ++ INSTRUCTIONS_END_SENTINEL ++ post) marker
        = (false, none)) ∧
    (searchRetry post = none → searchCompletion marker post = true →
      check_completion_marker (pre ++ INSTRUCTIONS_END_SENTINEL ++ post) marker
        = (true, none)) ∧
    (∀ r, searchRetry post = some r →
      check_completion_marker (pre ++ INSTRUCTIONS_END_SENTINEL ++ post) marker
        = (false, some (pyStrip r))) := by
  have hdrop : (pre ++ INSTRUCTIONS_END_SENTINEL ++ post).drop
      (pre.length + INSTRUCTIONS_END_SENTINEL.length) = post := by
    have h1 := List.drop_left (pre ++ INSTRUCTIONS_END_SENTINEL) post
    rw [List.length_append] at h1
    exact h1
  have hmain : check_completion_marker (pre ++ INSTRUCTIONS_END_SENTINEL ++ post)
      marker = checkTail post marker := by
    rw [check_completion_marker, hfirst]
    simp only [hdrop, checkTail]
  refine ⟨hmain, ?_, ?_, ?_⟩
  · intro hr hcmp
    rw [hmain, checkTail, hr, hcmp]
  · intro hr hcmp
    rw [hmain, checkTail, hr, hcmp]
  · intro r hr
    rw [hmain, checkTail, hr]

/-- Witness for C3: the wrapped instructions (before the sentinel) contain a
literal completion signal, the genuine output (after the sentinel) does not;
the transcript is classified not-completed. -/
theorem check_completion_marker_sentinel_witness :
    check_completion_marker
      ("example: <verification>DONE</verification> ".data ++
        INSTRUCTIONS_END_SENTINEL ++ " model output with no signal".data)
      "DONE".data = (false, none) :=
  (check_completion_marker_sentinel "example: <verification>DONE</verification> ".data
    " model output with no signal".data "DONE".data (by decide)).2.1
    (by decide) (by decide)

/-! ### The verification retry loop (executor.py lines 900-1617)

`LoopState` models the per-item loop state dict (executor.py
`create_loop_state`): the bookkeeping fields `prompt_file`, `started_at`,
`last_updated_at` and the `suggested_next_steps` accumulator (not touched by
any claim) are omitted.  File-system and worker effects are supplied by a
`LoopEnv` oracle: `preCwd` is the file system at the pre-loop validation,
`iterCwd i` at the start of iteration `i`, `exitCode i` and `logContent i`
are the worker's exit code and transcript for iteration `i`. -/

inductive PathKind
  | dir
  | file
  | absent
  deriving DecidableEq

/-- One entry of `state["history"]` / `result["iterations"]`
(executor.py lines 983-990 and 1573-1579: the dicts have the same keys). -/
structure IterationRecord where
  iteration : Nat
  exit_code : Int
  marker_found : Bool
  retry_reason : Option (List Char)
  log_file : String
  deriving DecidableEq

structure LoopState where
  prompt_number : String
  model : String
  execution_timestamp : Option String
  worktree_path : Option String
  branch_name : Option String
  execution_cwd : Option String
  iteration : Nat
  max_iterations : Nat
  completion_marker : String
  status : String
  failure_reason : Option String
  history : List IterationRecord
  deriving DecidableEq

structure LoopEnv where
  preCwd : String → PathKind
  iterCwd : Nat → String → PathKind
  exitCode : Nat → Int
  logContent : Nat → List Char

/-- Embedding of `create_loop_state` (executor.py lines 929-958). -/
def create_loop_state (prompt_number model : String) (max_iterations : Nat)
    (completion_marker : String)
    (execution_timestamp worktree_path branch_name execution_cwd : Option String) :
    LoopState :=
  { prompt_number := prompt_number
    model := model
    execution_timestamp := execution_timestamp
    worktree_path := worktree_path
    branch_name := branch_name
    execution_cwd := execution_cwd
    iteration := 0
    max_iterations := max_iterations
    completion_marker := completion_marker
    status := "pending"
    failure_reason := none
    history := [] }

/-- Python truthiness of an optional string (`None` and `""` are falsy). -/
def pyFalsyStr : Option String → Bool
  | none => true
  | some s => s = ""

/-- Embedding of `validate_execution_cwd` (executor.py lines 961-972); the
file system is an oracle `fs`. -/
def validate_execution_cwd (fs : String → PathKind) (cwd : String) :
    Bool × Option String :=
  match fs cwd with
  | PathKind.absent => (false, some ("execution_cwd does not exist: " ++ cwd))
  | PathKind.file => (false, some ("execution_cwd is not a directory: " ++ cwd))
  | PathKind.dir => (true, none)

/-- Embedding of `update_loop_iteration` (executor.py lines 975-999). -/
def update_loop_iteration (st : LoopState) (exit_code : Int) (marker_found : Bool)
    (log_file : String) (retry_reason : Option (List Char)) : LoopState :=
  let entry : IterationRecord :=
    { iteration := st.iteration, exit_code := exit_code, marker_found := marker_found,
      retry_reason := retry_reason, log_file := log_file }
  let st1 := { st with history := st.history ++ [entry] }
  if marker_found then { st1 with status := "completed" }
  else if st1.max_iterations ≤ st1.iteration then
    { st1 with status := "max_iterations_reached" }
  else { st1 with status := "running" }

/-- State-resolution prefix of `run_verification_loop` (executor.py lines
1431-1467): resume a persisted pending/running state (its `iteration` field
is persisted as the next iteration to run), otherwise create a fresh one;
keep a non-empty persisted execution timestamp; always refresh
`execution_cwd`, and refresh `worktree_path`/`branch_name` when the current
invocation supplies them. -/
def resume_initial_state (existing : Option LoopState)
    (prompt_number model cwd : String) (max_iterations : Nat)
    (completion_marker : String) (execution_timestamp : String)
    (worktree_path branch_name : Option String) : LoopState :=
  let st0 :=
    match existing with
    | some s =>
      if s.status = "pending" ∨ s.status = "running" then
        { s with iteration := if s.iteration = 0 then 1 else s.iteration }
      else
        { create_loop_state prompt_number model max_iterations completion_marker
            (some execution_timestamp) worktree_path branch_name (some cwd) with
          iteration := 1 }
    | none =>
      { create_loop_state prompt_number model max_iterations completion_marker
          (some execution_timestamp) worktree_path branch_name (some cwd) with
        iteration := 1 }
  let st1 := if pyFalsyStr st0.execution_timestamp then
      { st0 with execution_timestamp := some execution_timestamp } else st0
  let st2 := { st1 with execution_cwd := some cwd }
  let st3 := match worktree_path with
    | some w => { st2 with worktree_path := some w }
    | none => st2
  match branch_name with
  | some b => { st3 with branch_name := some b }
  | none => st3

/-- Decimal rendering of a natural number (Python `str(i)`), written with
explicit fuel so it reduces in the kernel. -/
def natToStrAux : Nat → Nat → List Char
  | 0, _ => []
  | fuel + 1, n =>
    if n < 10 then [Char.ofNat (48 + n)]
    else natToStrAux fuel (n / 10) ++ [Char.ofNat (48 + n % 10)]

def natToStr (n : Nat) : String := String.mk (natToStrAux (n + 1) n)

/-- The per-iteration log file name
`f"{model}-{prompt_number}-iter{iteration}-{effective_timestamp}.log"`. -/
def iterLogName (model prompt_number : String) (iteration : Nat) (ts : String) :
    String :=
  model ++ "-" ++ prompt_number ++ "-iter" ++ natToStr iteration ++ "-" ++ ts ++ ".log"

/-- `state.get("execution_cwd") or cwd` (executor.py line 1523). -/
def effectiveCwd (cwd : String) (st : LoopState) : String :=
  match st.execution_cwd with
  | some s => if s = "" then cwd else s
  | none => cwd

/-- Result of one invocation of the loop: `final_status` models
`result["final_status"]`, `iterations` models `result["iterations"]`,
`workerCalls` lists the iterations at which `run_cli_foreground` was
actually invoked, `saves` records each `save_loop_state` call in order, and
`state` is the in-memory (and last persisted) loop state on return. -/
structure LoopResult where
  final_status : Option String
  iterations : List IterationRecord
  workerCalls : List Nat
  saves : List LoopState
  state : LoopState
  deriving DecidableEq

/-- The `while state["iteration"] <= max_iterations` loop of
`run_verification_loop` (executor.py lines 1519-1612), with fuel
`max_iterations + 1 - iteration` (each pass either breaks or increments the
iteration, so fuel 0 coincides with the loop condition failing). -/
def loopIters (env : LoopEnv) (cwd marker : String) (max_iterations : Nat)
    (model prompt_number ts : String) : Nat → LoopState → LoopResult
  | 0, st =>
    { final_status := none, iterations := [], workerCalls := [], saves := [], state := st }
  | fuel + 1, st =>
    if max_iterations < st.iteration then
      { final_status := none, iterations := [], workerCalls := [], saves := [], state := st }
    else
      let iteration := st.iteration
      let execution_cwd := effectiveCwd cwd st
      let v := validate_execution_cwd (env.iterCwd iteration) execution_cwd
      if v.1 then
        let log_file := iterLogName model prompt_number iteration ts
        let exit_code := env.exitCode iteration
        let res := check_completion_marker (env.logContent iteration) marker.data
        let st1 := update_loop_iteration st exit_code res.1 log_file res.2
        let rec1 : IterationRecord :=
          { iteration := iteration, exit_code := exit_code, marker_found := res.1,
            retry_reason := res.2, log_file := log_file }
        if res.1 then
          let st2 := { st1 with status := "completed" }
          { final_status := some "completed", iterations := [rec1],
            workerCalls := [iteration], saves := [st2], state := st2 }
        else if max_iterations ≤ iteration then
          let st2 := { st1 with status := "max_iterations_reached" }
          { final_status := some "max_iterations_reached", iterations := [rec1],
            workerCalls := [iteration], saves := [st2], state := st2 }
        else
          let st2 := { st1 with iteration := iteration + 1 }
          let rest := loopIters env cwd marker max_iterations model prompt_number ts
            fuel st2
          { final_status := rest.final_status, iterations := rec1 :: rest.iterations,
            workerCalls := iteration :: rest.workerCalls, saves := st2 :: rest.saves,
            state := rest.state }
      else
        let st1 := { st with status := "failed", failure_reason := v.2 }
        { final_status := some "failed", iterations := [], workerCalls := [],
          saves := [st1], state := st1 }

/-- Embedding of `run_verification_loop` (executor.py lines 1414-1617). -/
def run_verification_loop (env : LoopEnv) (existing : Option LoopState)
    (cwd prompt_number model : String) (max_iterations : Nat)
    (completion_marker : String) (execution_timestamp : String)
    (worktree_path branch_name : Option String) : LoopResult :=
  let state0 := resume_initial_state existing prompt_number model cwd max_iterations
    completion_marker execution_timestamp worktree_path branch_name
  let effective_timestamp := (state0.execution_timestamp).getD ""
  let v := validate_execution_cwd env.preCwd ((state0.execution_cwd).getD cwd)
  if v.1 then
    let st1 := { state0 with status := "running" }
    let res := loopIters env cwd completion_marker max_iterations model prompt_number
      effective_timestamp (max_iterations + 1 - st1.iteration) st1
    { res with saves := st1 :: res.saves }
  else
    let st1 := { state0 with status := "failed", failure_reason := v.2 }
    { final_status := some "failed", iterations := [], workerCalls := [],
      saves := [st1], state := st1 }

theorem validate_ok_iff (fs : String → PathKind) (c : String) :
    (validate_execution_cwd fs c).1 = true ↔ fs c = PathKind.dir := by
  unfold validate_execution_cwd
  cases fs c <;> simp

/-- The history entry appended by iteration `i` (same fields as the
`result["iterations"]` entry). -/
def stepEntry (env : LoopEnv) (marker model prompt_number ts : String) (i : Nat) :
    IterationRecord :=
  { iteration := i
    exit_code := env.exitCode i
    marker_found := (check_completion_marker (env.logContent i) marker.data).1
    retry_reason := (check_completion_marker (env.logContent i) marker.data).2
    log_file := iterLogName model prompt_number i ts }

/-- The state after `update_loop_iteration` for the current iteration. -/
def stepState (env : LoopEnv) (marker model prompt_number ts : String)
    (st : LoopState) : LoopState :=
  update_loop_iteration st (env.exitCode st.iteration)
    (check_completion_marker (env.logContent st.iteration) marker.data).1
    (iterLogName model prompt_number st.iteration ts)
    (check_completion_marker (env.logContent st.iteration) marker.data).2

theorem update_loop_iteration_history (st : LoopState) (ec : Int) (mf : Bool)
    (lf : String) (rr : Option (List Char)) :
    (update_loop_iteration st ec mf lf rr).history =
      st.history ++ [(⟨st.iteration, ec, mf, rr, lf⟩ : IterationRecord)] := by
  by_cases h : st.max_iterations ≤ st.iteration <;> cases mf <;>
    simp [update_loop_iteration, h]

theorem update_loop_iteration_fields (st : LoopState) (ec : Int) (mf : Bool)
    (lf : String) (rr : Option (List Char)) :
    (update_loop_iteration st ec mf lf rr).execution_timestamp = st.execution_timestamp ∧
    (update_loop_iteration st ec mf lf rr).execution_cwd = st.execution_cwd ∧
    (update_loop_iteration st ec mf lf rr).worktree_path = st.worktree_path ∧
    (update_loop_iteration st ec mf lf rr).branch_name = st.branch_name ∧
    (update_loop_iteration st ec mf lf rr).iteration = st.iteration ∧
    (update_loop_iteration st ec mf lf rr).max_iterations = st.max_iterations := by
  by_cases h : st.max_iterations ≤ st.iteration <;> cases mf <;>
    simp [update_loop_iteration, h]

theorem loopIters_zero (env : LoopEnv) (cwd marker : String) (max_iterations : Nat)
    (model prompt_number ts : String) (st : LoopState) :
    loopIters env cwd marker max_iterations model prompt_number ts 0 st =
      { final_status := none, iterations := [], workerCalls := [], saves := [],
        state := st } := rfl

theorem loopIters_exhausted (env : LoopEnv) (cwd marker : String)
    (max_iterations : Nat) (model prompt_number ts : String) (fuel : Nat)
    (st : LoopState) (hmax : max_iterations < st.iteration) :
    loopIters env cwd marker max_iterations model prompt_number ts (fuel + 1) st =
      { final_status := none, iterations := [], workerCalls := [], saves := [],
        state := st } := by
  simp only [loopIters]
  rw [if_pos hmax]

theorem loopIters_cwdfail (env : LoopEnv) (cwd marker : String)
    (max_iterations : Nat) (model prompt_number ts : String) (fuel : Nat)
    (st : LoopState) (hmax : ¬ max_iterations < st.iteration)
    (hv : ¬ (validate_execution_cwd (env.iterCwd st.iteration)
      (effectiveCwd cwd st)).1 = true) :
    loopIters env cwd marker max_iterations model prompt_number ts (fuel + 1) st =
      { final_status := some "failed", iterations := [], workerCalls := [],
        saves := [{ st with
          status := "failed"
          failure_reason := (validate_execution_cwd (env.iterCwd st.iteration)
            (effectiveCwd cwd st)).2 }],
        state := { st with
          status := "failed"
          failure_reason := (validate_execution_cwd (env.iterCwd st.iteration)
            (effectiveCwd cwd st)).2 } } := by
  simp only [loopIters]
  rw [if_neg hmax, if_neg hv]

theorem loopIters_complete (env : LoopEnv) (cwd marker : String)
    (max_iterations : Nat) (model prompt_number ts : String) (fuel : Nat)
    (st : LoopState) (hmax : ¬ max_iterations < st.iteration)
    (hv : (validate_execution_cwd (env.iterCwd st.iteration)
      (effectiveCwd cwd st)).1 = true)
    (hm : (check_completion_marker (env.logContent st.iteration) marker.data).1 = true) :
    loopIters env cwd marker max_iterations model prompt_number ts (fuel + 1) st =
      { final_status := some "completed",
        iterations := [stepEntry env marker model prompt_number ts st.iteration],
        workerCalls := [st.iteration],
        saves := [{ stepState env marker model prompt_number ts st with
          status := "completed" }],
        state := { stepState env marker model prompt_number ts st with
          status := "completed" } } := by
  simp only [loopIters]
  rw [if_neg hmax, if_pos hv, if_pos hm]
  rfl

theorem loopIters_maxed (env : LoopEnv) (cwd marker : String)
    (max_iterations : Nat) (model prompt_number ts : String) (fuel : Nat)
    (st : LoopState) (hmax : ¬ max_iterations < st.iteration)
    (hv : (validate_execution_cwd (env.iterCwd st.iteration)
      (effectiveCwd cwd st)).1 = true)
    (hm : ¬ (check_completion_marker (env.logContent st.iteration) marker.data).1 = true)
    (hstop : max_iterations ≤ st.iteration) :
    loopIters env cwd marker max_iterations model prompt_number ts (fuel + 1) st =
      { final_status := some "max_iterations_reached",
        iterations := [stepEntry env marker model prompt_number ts st.iteration],
        workerCalls := [st.iteration],
        saves := [{ stepState env marker model prompt_number ts st with
          status := "max_iterations_reached" }],
        state := { stepState env marker model prompt_number ts st with
          status := "max_iterations_reached" } } := by
  simp only [loopIters]
  rw [if_neg hmax, if_pos hv, if_neg hm, if_pos hstop]
  rfl

theorem loopIters_recurse (env : LoopEnv) (cwd marker : String)
    (max_iterations : Nat) (model prompt_number ts : String) (fuel : Nat)
    (st : LoopState) (hmax : ¬ max_iterations < st.iteration)
    (hv : (validate_execution_cwd (env.iterCwd st.iteration)
      (effectiveCwd cwd st)).1 = true)
    (hm : ¬ (check_completion_marker (env.logContent st.iteration) marker.data).1 = true)
    (hstop : ¬ max_iterations ≤ st.iteration) :
    loopIters env cwd marker max_iterations model prompt_number ts (fuel + 1) st =
      (let st2 := { stepState env marker model prompt_number ts st with
          iteration := st.iteration + 1 }
       let rest := loopIters env cwd marker max_iterations model prompt_number ts fuel st2
       { final_status := rest.final_status,
         iterations := stepEntry env marker model prompt_number ts st.iteration ::
           rest.iterations,
         workerCalls := st.iteration :: rest.workerCalls,
         saves := st2 :: rest.saves,
         state := rest.state }) := by
  simp only [loopIters]
  rw [if_neg hmax, if_pos hv, if_neg hm, if_neg hstop]
  rfl

theorem stepState_fields (env : LoopEnv) (marker model prompt_number ts : String)
    (st : LoopState) :
    (stepState env marker model prompt_number ts st).history =
      st.history ++ [stepEntry env marker model prompt_number ts st.iteration] ∧
    (stepState env marker model prompt_number ts st).execution_timestamp =
      st.execution_timestamp ∧
    (stepState env marker model prompt_number ts st).execution_cwd = st.execution_cwd ∧
    (stepState env marker model prompt_number ts st).worktree_path = st.worktree_path ∧
    (stepState env marker model prompt_number ts st).branch_name = st.branch_name := by
  have h1 := update_loop_iteration_history st (env.exitCode st.iteration)
    (check_completion_marker (env.logContent st.iteration) marker.data).1
    (iterLogName model prompt_number st.iteration ts)
    (check_completion_marker (env.logContent st.iteration) marker.data).2
  have h2 := update_loop_iteration_fields st (env.exitCode st.iteration)
    (check_completion_marker (env.logContent st.iteration) marker.data).1
    (iterLogName model prompt_number st.iteration ts)
    (check_completion_marker (env.logContent st.iteration) marker.data).2
  exact ⟨h1, h2.1, h2.2.1, h2.2.2.1, h2.2.2.2.1⟩

/-- Invariants of one run of the iteration loop relative to its start
state: the worker is only invoked at iterations at least the start
iteration and only when that iteration's working-directory check passes;
the history is only extended (by exactly the reported iteration records);
and the timestamp/working-directory bindings are never modified inside the
loop. -/
def LoopInv (env : LoopEnv) (cwd : String) (st : LoopState) (res : LoopResult) :
    Prop :=
  res.state.history = st.history ++ res.iterations ∧
  (∀ c ∈ res.workerCalls, st.iteration ≤ c) ∧
  (∀ r ∈ res.iterations, st.iteration ≤ r.iteration) ∧
  (∀ c, res.workerCalls.head? = some c → c = st.iteration) ∧
  res.state.execution_timestamp = st.execution_timestamp ∧
  res.state.execution_cwd = st.execution_cwd ∧
  res.state.worktree_path = st.worktree_path ∧
  res.state.branch_name = st.branch_name ∧
  (∀ i ∈ res.workerCalls, env.iterCwd i (effectiveCwd cwd st) = PathKind.dir)

theorem loopIters_spec (env : LoopEnv) (cwd marker : String) (max_iterations : Nat)
    (model prompt_number ts : String) :
    ∀ (fuel : Nat) (st : LoopState),
      LoopInv env cwd st
        (loopIters env cwd marker max_iterations model prompt_number ts fuel st) := by
  intro fuel
  induction fuel with
  | zero =>
    intro st
    rw [loopIters_zero]
    exact ⟨by simp, by intro c hc; simp at hc, by intro r hr; simp at hr,
      by intro c hc; simp at hc, rfl, rfl, rfl, rfl, by intro i hi; simp at hi⟩
  | succ fuel ih =>
    intro st
    by_cases hmax : max_iterations < st.iteration
    · rw [loopIters_exhausted env cwd marker max_iterations model prompt_number ts
        fuel st hmax]
      exact ⟨by simp, by intro c hc; simp at hc, by intro r hr; simp at hr,
        by intro c hc; simp at hc, rfl, rfl, rfl, rfl, by intro i hi; simp at hi⟩
    · by_cases hv : (validate_execution_cwd (env.iterCwd st.iteration)
        (effectiveCwd cwd st)).1 = true
      · have hdir : env.iterCwd st.iteration (effectiveCwd cwd st) = PathKind.dir :=
          (validate_ok_iff _ _).mp hv
        obtain ⟨hs1, hs2, hs3, hs4, hs5⟩ := stepState_fields env marker model
          prompt_number ts st
        by_cases hm : (check_completion_marker (env.logContent st.iteration)
          marker.data).1 = true
        · rw [loopIters_complete env cwd marker max_iterations model prompt_number ts
            fuel st hmax hv hm]
          refine ⟨?_, ?_, ?_, ?_, ?_, ?_, ?_, ?_, ?_⟩
          · simpa using hs1
          · intro c hc; simp at hc; omega
          · intro r hr
            simp at hr
            rw [hr, stepEntry]
          · intro c hc; simp at hc; omega
          · simpa using hs2
          · simpa using hs3
          · simpa using hs4
          · simpa using hs5
          · intro i hi; simp at hi; rw [hi]; exact hdir
        · by_cases hstop : max_iterations ≤ st.iteration
          · rw [loopIters_maxed env cwd marker max_iterations model prompt_number ts
              fuel st hmax hv hm hstop]
            refine ⟨?_, ?_, ?_, ?_, ?_, ?_, ?_, ?_, ?_⟩
            · simpa using hs1
            · intro c hc; simp at hc; omega
            · intro r hr
              simp at hr
              rw [hr, stepEntry]
            · intro c hc; simp at hc; omega
            · simpa using hs2
            · simpa using hs3
            · simpa using hs4
            · simpa using hs5
            · intro i hi; simp at hi; rw [hi]; exact hdir
          · rw [loopIters_recurse env cwd marker max_iterations model prompt_number ts
              fuel st hmax hv hm hstop]
            simp only []
            obtain ⟨ih1, ih2, ih3, ih4, ih5, ih6, ih7, ih8, ih9⟩ :=
              ih { stepState env marker model prompt_number ts st with
                iteration := st.iteration + 1 }
            refine ⟨?_, ?_, ?_, ?_, ?_, ?_, ?_, ?_, ?_⟩
            · simp only [ih1]
              simp [hs1, stepEntry]
            · intro c hc
              simp at hc
              rcases hc with rfl | hc
              · omega
              · have := ih2 c hc
                simp at this
                omega
            · intro r hr
              simp at hr
              rcases hr with rfl | hr
              · rw [stepEntry]
              · have := ih3 r hr
                simp at this
                omega
            · intro c hc
              simp at hc
              omega
            · simp only [ih5]
              simpa using hs2
            · simp only [ih6]
              simpa using hs3
            · simp only [ih7]
              simpa using hs4
            · simp only [ih8]
              simpa using hs5
            · intro i hi
              simp at hi
              rcases hi with rfl | hi
              · exact hdir
              · have := ih9 i hi
                have hcwd : effectiveCwd cwd
                    { stepState env marker model prompt_number ts st with
                      iteration := st.iteration + 1 } = effectiveCwd cwd st := by
                  simp [effectiveCwd, hs3]
                rw [hcwd] at this
                exact this
      · rw [loopIters_cwdfail env cwd marker max_iterations model prompt_number ts
          fuel st hmax hv]
        exact ⟨by simp, by intro c hc; simp at hc, by intro r hr; simp at hr,
          by intro c hc; simp at hc, rfl, rfl, rfl, rfl, by intro i hi; simp at hi⟩

theorem effectiveCwd_self (cwd : String) (st : LoopState)
    (h : st.execution_cwd = some cwd) : effectiveCwd cwd st = cwd := by
  simp [effectiveCwd, h]

theorem resume_fields (existing : Option LoopState) (pn model cwd : String)
    (maxI : Nat) (marker ts : String) (wt bn : Option String) :
    (resume_initial_state existing pn model cwd maxI marker ts wt bn).execution_cwd
      = some cwd ∧
    (∀ w, wt = some w →
      (resume_initial_state existing pn model cwd maxI marker ts wt bn).worktree_path
        = some w) ∧
    (∀ b, bn = some b →
      (resume_initial_state existing pn model cwd maxI marker ts wt bn).branch_name
        = some b) := by
  rcases bn with _ | b <;> rcases wt with _ | w <;>
    simp [resume_initial_state]

theorem resume_resumed (s : LoopState) (pn model cwd : String) (maxI : Nat)
    (marker ts : String) (wt bn : Option String)
    (hstatus : s.status = "pending" ∨ s.status = "running")
    (hiter0 : s.iteration ≠ 0)
    (hts : ¬ pyFalsyStr s.execution_timestamp = true) :
    (resume_initial_state (some s) pn model cwd maxI marker ts wt bn).iteration
      = s.iteration ∧
    (resume_initial_state (some s) pn model cwd maxI marker ts wt bn).history
      = s.history ∧
    (resume_initial_state (some s) pn model cwd maxI marker ts wt bn).execution_timestamp
      = s.execution_timestamp := by
  rcases bn with _ | b <;> rcases wt with _ | w <;>
    simp [resume_initial_state, hstatus, hiter0, hts]

/-- The loop invariants hold for a whole `run_verification_loop` call,
relative to the resolved start state. -/
theorem run_verification_loop_spec (env : LoopEnv) (existing : Option LoopState)
    (cwd pn model : String) (maxI : Nat) (marker ts : String)
    (wt bn : Option String) :
    LoopInv env cwd (resume_initial_state existing pn model cwd maxI marker ts wt bn)
      (run_verification_loop env existing cwd pn model maxI marker ts wt bn) := by
  rw [run_verification_loop]
  by_cases hv : (validate_execution_cwd env.preCwd
    (((resume_initial_state existing pn model cwd maxI marker ts wt bn).execution_cwd).getD
      cwd)).1 = true
  · rw [if_pos hv]
    have h := loopIters_spec env cwd marker maxI model pn
      (((resume_initial_state existing pn model cwd maxI marker ts wt bn).execution_timestamp).getD "")
      (maxI + 1 -
        (resume_initial_state existing pn model cwd maxI marker ts wt bn).iteration)
      { resume_initial_state existing pn model cwd maxI marker ts wt bn with
        status := "running" }
    obtain ⟨h1, h2, h3, h4, h5, h6, h7, h8, h9⟩ := h
    refine ⟨by simpa using h1, by simpa using h2, by simpa using h3,
      by simpa using h4, by simpa using h5, by simpa using h6, by simpa using h7,
      by simpa using h8, ?_⟩
    intro i hi
    have := h9 i (by simpa using hi)
    have hcwd : effectiveCwd cwd
        { resume_initial_state existing pn model cwd maxI marker ts wt bn with
          status := "running" } =
        effectiveCwd cwd (resume_initial_state existing pn model cwd maxI marker ts wt bn) := by
      simp [effectiveCwd]
    rw [hcwd] at this
    exact this
  · rw [if_neg hv]
    exact ⟨by simp, by intro c hc; simp at hc, by intro r hr; simp at hr,
      by intro c hc; simp at hc, by simp, by simp, by simp, by simp,
      by intro i hi; simp at hi⟩

theorem run_verification_loop_prefail_eq (env : LoopEnv) (existing : Option LoopState)
    (cwd pn model : String) (maxI : Nat) (marker ts : String) (wt bn : Option String)
    (hv : ¬ (validate_execution_cwd env.preCwd
      (((resume_initial_state existing pn model cwd maxI marker ts wt bn).execution_cwd).getD
        cwd)).1 = true) :
    run_verification_loop env existing cwd pn model maxI marker ts wt bn =
      { final_status := some "failed", iterations := [], workerCalls := [],
        saves := [{ resume_initial_state existing pn model cwd maxI marker ts wt bn with
          status := "failed"
          failure_reason := (validate_execution_cwd env.preCwd
            (((resume_initial_state existing pn model cwd maxI marker ts wt bn).execution_cwd).getD
              cwd)).2 }],
        state := { resume_initial_state existing pn model cwd maxI marker ts wt bn with
          status := "failed"
          failure_reason := (validate_execution_cwd env.preCwd
            (((resume_initial_state existing pn model cwd maxI marker ts wt bn).execution_cwd).getD
              cwd)).2 } } := by
  rw [run_verification_loop]
  rw [if_neg hv]

theorem run_verification_loop_preok_eq (env : LoopEnv) (existing : Option LoopState)
    (cwd pn model : String) (maxI : Nat) (marker ts : String) (wt bn : Option String)
    (hv : (validate_execution_cwd env.preCwd
      (((resume_initial_state existing pn model cwd maxI marker ts wt bn).execution_cwd).getD
        cwd)).1 = true) :
    run_verification_loop env existing cwd pn model maxI marker ts wt bn =
      (let st1 := { resume_initial_state existing pn model cwd maxI marker ts wt bn with
          status := "running" }
       let r := loopIters env cwd marker maxI model pn
         (((resume_initial_state existing pn model cwd maxI marker ts wt bn).execution_timestamp).getD "")
         (maxI + 1 -
           (resume_initial_state existing pn model cwd maxI marker ts wt bn).iteration)
         st1
       { final_status := r.final_status, iterations := r.iterations,
         workerCalls := r.workerCalls, saves := st1 :: r.saves, state := r.state }) := by
  rw [run_verification_loop]
  rw [if_pos hv]

/-- C4: re-invoking `run_verification_loop` on a persisted pending/running
`LoopState` whose `iteration` field is 3 of max 5 (i.e. iterations 1-2 are
recorded as completed; the field is persisted as the next iteration to run)
resumes at iteration 3: no worker call or new iteration record has an
iteration number below 3, the first worker call (if any) is iteration 3,
the recorded history is preserved and only extended by the new iteration
records, the originally persisted execution timestamp survives instead of
the newly passed one, and the working-directory binding (`execution_cwd`,
and `worktree_path`/`branch_name` when supplied) is refreshed from the
current invocation's parameters. -/
theorem run_verification_loop_resume (env : LoopEnv) (s : LoopState)
    (cwd pn model marker ts_new ts0 : String) (wt bn : Option String)
    (hstatus : s.status = "pending" ∨ s.status = "running")
    (hiter : s.iteration = 3)
    (hts : s.execution_timestamp = some ts0) (hts0 : ts0 ≠ "") :
    (resume_initial_state (some s) pn model cwd 5 marker ts_new wt bn).iteration = 3 ∧
    (∀ c ∈ (run_verification_loop env (some s) cwd pn model 5 marker ts_new wt
      bn).workerCalls, 3 ≤ c) ∧
    (∀ r ∈ (run_verification_loop env (some s) cwd pn model 5 marker ts_new wt
      bn).iterations, 3 ≤ r.iteration) ∧
    (∀ c, (run_verification_loop env (some s) cwd pn model 5 marker ts_new wt
      bn).workerCalls.head? = some c → c = 3) ∧
    (run_verification_loop env (some s) cwd pn model 5 marker ts_new wt
      bn).state.history = s.history ++
        (run_verification_loop env (some s) cwd pn model 5 marker ts_new wt
          bn).iterations ∧
    (run_verification_loop env (some s) cwd pn model 5 marker ts_new wt
      bn).state.execution_timestamp = some ts0 ∧
    (run_verification_loop env (some s) cwd pn model 5 marker ts_new wt
      bn).state.execution_cwd = some cwd ∧
    (∀ w, wt = some w → (run_verification_loop env (some s) cwd pn model 5 marker
      ts_new wt bn).state.worktree_path = some w) ∧
    (∀ b, bn = some b → (run_verification_loop env (some s) cwd pn model 5 marker
      ts_new wt bn).state.branch_name = some b) := by
  have hiter0 : s.iteration ≠ 0 := by omega
  have htsf : ¬ pyFalsyStr s.execution_timestamp = true := by
    rw [hts]
    simp [pyFalsyStr, hts0]
  obtain ⟨hr1, hr2, hr3⟩ := resume_resumed s pn model cwd 5 marker ts_new wt bn
    hstatus hiter0 htsf
  obtain ⟨hf1, hf2, hf3⟩ := resume_fields (some s) pn model cwd 5 marker ts_new wt bn
  obtain ⟨hl1, hl2, hl3, hl4, hl5, hl6, hl7, hl8, hl9⟩ :=
    run_verification_loop_spec env (some s) cwd pn model 5 marker ts_new wt bn
  rw [hiter] at hr1
  refine ⟨hr1, ?_, ?_, ?_, ?_, ?_, ?_, ?_, ?_⟩
  · intro c hc
    have := hl2 c hc
    rw [hr1] at this
    exact this
  · intro r hr
    have := hl3 r hr
    rw [hr1] at this
    exact this
  · intro c hc
    have := hl4 c hc
    rw [hr1] at this
    exact this
  · rw [hl1, hr2]
  · rw [hl5, hr3, hts]
  · rw [hl6, hf1]
  · intro w hw
    rw [hl7, hf2 w hw]
  · intro b hb
    rw [hl8, hf3 b hb]

/-- A persisted loop state that has completed iterations 1-2 of max 5
(`iteration` = 3 is the next iteration to run). -/
def sW : LoopState :=
  { prompt_number := "007", model := "claude", execution_timestamp := some "T0",
    worktree_path := none, branch_name := none, execution_cwd := some "/old",
    iteration := 3, max_iterations := 5, completion_marker := "DONE",
    status := "running", failure_reason := none,
    history := [⟨1, 0, false, some "fix tests".data, "log1"⟩,
      ⟨2, 0, false, none, "log2"⟩] }

/-- Oracle: the directory always exists, the worker exits 0 and emits a
genuine completion signal after the sentinel. -/
def envW : LoopEnv :=
  { preCwd := fun _ => PathKind.dir, iterCwd := fun _ _ => PathKind.dir,
    exitCode := fun _ => 0,
    logContent := fun _ =>
      INSTRUCTIONS_END_SENTINEL ++ " <verification>DONE</verification>".data }

/-- Witness for C4 at a concrete resumed state and worker oracle. -/
theorem run_verification_loop_resume_witness :
    (resume_initial_state (some sW) "007" "claude" "/work" 5 "DONE" "T9"
      (some "/wt") (some "feat")).iteration = 3 ∧
    (run_verification_loop envW (some sW) "/work" "007" "claude" 5 "DONE" "T9"
      (some "/wt") (some "feat")).state.execution_timestamp = some "T0" ∧
    (run_verification_loop envW (some sW) "/work" "007" "claude" 5 "DONE" "T9"
      (some "/wt") (some "feat")).state.execution_cwd = some "/work" := by
  have h := run_verification_loop_resume envW sW "/work" "007" "claude" "DONE" "T9"
    "T0" (some "/wt") (some "feat") (Or.inr (by decide)) (by decide) (by decide)
    (by decide)
  exact ⟨h.1, h.2.2.2.2.2.1, h.2.2.2.2.2.2.1⟩

/-- C5: if the execution working directory is missing (or not a directory)
at loop start, the loop fails immediately: no worker is ever invoked, the
state is persisted with status `failed` and a human-readable reason naming
the path, and the result reports final_status `failed`.  The worker is
never invoked at any iteration whose start-of-iteration directory check
fails, and a failing check at the first loop iteration likewise fails the
run before any worker call. -/
theorem run_verification_loop_missing_cwd (env : LoopEnv)
    (existing : Option LoopState) (cwd pn model : String) (maxI : Nat)
    (marker ts : String) (wt bn : Option String) :
    (env.preCwd cwd ≠ PathKind.dir →
      (run_verification_loop env existing cwd pn model maxI marker ts wt
        bn).final_status = some "failed" ∧
      (run_verification_loop env existing cwd pn model maxI marker ts wt
        bn).workerCalls = [] ∧
      (run_verification_loop env existing cwd pn model maxI marker ts wt
        bn).iterations = [] ∧
      (run_verification_loop env existing cwd pn model maxI marker ts wt
        bn).state.status = "failed" ∧
      ((run_verification_loop env existing cwd pn model maxI marker ts wt
        bn).state.failure_reason = some ("execution_cwd does not exist: " ++ cwd) ∨
       (run_verification_loop env existing cwd pn model maxI marker ts wt
        bn).state.failure_reason = some ("execution_cwd is not a directory: " ++ cwd)) ∧
      (run_verification_loop env existing cwd pn model maxI marker ts wt
        bn).saves = [(run_verification_loop env existing cwd pn model maxI marker ts
          wt bn).state]) ∧
    (∀ i ∈ (run_verification_loop env existing cwd pn model maxI marker ts wt
      bn).workerCalls, env.iterCwd i cwd = PathKind.dir) ∧
    (env.preCwd cwd = PathKind.dir →
      (resume_initial_state existing pn model cwd maxI marker ts wt bn).iteration
        ≤ maxI →
      env.iterCwd (resume_initial_state existing pn model cwd maxI marker ts wt
        bn).iteration cwd ≠ PathKind.dir →
      (run_verification_loop env existing cwd pn model maxI marker ts wt
        bn).final_status = some "failed" ∧
      (run_verification_loop env existing cwd pn model maxI marker ts wt
        bn).workerCalls = [] ∧
      (run_verification_loop env existing cwd pn model maxI marker ts wt
        bn).iterations = [] ∧
      (run_verification_loop env existing cwd pn model maxI marker ts wt
        bn).state.status = "failed" ∧
      ((run_verification_loop env existing cwd pn model maxI marker ts wt
        bn).state.failure_reason = some ("execution_cwd does not exist: " ++ cwd) ∨
       (run_verification_loop env existing cwd pn model maxI marker ts wt
        bn).state.failure_reason = some ("execution_cwd is not a directory: " ++ cwd)) ∧
      (run_verification_loop env existing cwd pn model maxI marker ts wt
        bn).saves.getLast? = some (run_verification_loop env existing cwd pn model
          maxI marker ts wt bn).state) := by
  have h0 := (resume_fields existing pn model cwd maxI marker ts wt bn).1
  refine ⟨?_, ?_, ?_⟩
  · intro hpre
    have hv : ¬ (validate_execution_cwd env.preCwd
        (((resume_initial_state existing pn model cwd maxI marker ts wt
          bn).execution_cwd).getD cwd)).1 = true := by
      rw [h0, Option.getD_some, validate_ok_iff]
      exact hpre
    rw [run_verification_loop_prefail_eq env existing cwd pn model maxI marker ts
      wt bn hv]
    refine ⟨rfl, rfl, rfl, by simp, ?_, rfl⟩
    rw [h0, Option.getD_some]
    simp only []
    unfold validate_execution_cwd
    cases hk : env.preCwd cwd with
    | dir => exact absurd hk hpre
    | file => right; rfl
    | absent => left; rfl
  · intro i hi
    have hinv := run_verification_loop_spec env existing cwd pn model maxI marker
      ts wt bn
    have := hinv.2.2.2.2.2.2.2.2 i hi
    rw [effectiveCwd_self cwd _ h0] at this
    exact this
  · intro hpre hle hbad
    have hv : (validate_execution_cwd env.preCwd
        (((resume_initial_state existing pn model cwd maxI marker ts wt
          bn).execution_cwd).getD cwd)).1 = true := by
      rw [h0, Option.getD_some, validate_ok_iff]
      exact hpre
    rw [run_verification_loop_preok_eq env existing cwd pn model maxI marker ts
      wt bn hv]
    simp only []
    obtain ⟨f, hf⟩ : ∃ f, maxI + 1 -
        (resume_initial_state existing pn model cwd maxI marker ts wt bn).iteration
          = f + 1 :=
      ⟨maxI - (resume_initial_state existing pn model cwd maxI marker ts wt
        bn).iteration, by omega⟩
    rw [hf]
    have hst1cwd : ({ resume_initial_state existing pn model cwd maxI marker ts wt bn
        with status := "running" } : LoopState).execution_cwd = some cwd := by
      simpa using h0
    have heff := effectiveCwd_self cwd _ hst1cwd
    have hmax : ¬ maxI < ({ resume_initial_state existing pn model cwd maxI marker
        ts wt bn with status := "running" } : LoopState).iteration := by
      simp only []
      omega
    have hv' : ¬ (validate_execution_cwd
        (env.iterCwd ({ resume_initial_state existing pn model cwd maxI marker ts wt
          bn with status := "running" } : LoopState).iteration)
        (effectiveCwd cwd { resume_initial_state existing pn model cwd maxI marker ts
          wt bn with status := "running" })).1 = true := by
      rw [heff, validate_ok_iff]
      simpa using hbad
    rw [loopIters_cwdfail env cwd marker maxI model pn
      (((resume_initial_state existing pn model cwd maxI marker ts wt
        bn).execution_timestamp).getD "") f _ hmax hv']
    refine ⟨rfl, rfl, rfl, by simp, ?_, by simp⟩
    rw [heff]
    simp only []
    unfold validate_execution_cwd
    cases hk : env.iterCwd ({ resume_initial_state existing pn model cwd maxI marker
        ts wt bn with status := "running" } : LoopState).iteration cwd with
    | dir =>
      refine absurd ?_ hbad
      simpa using hk
    | file => right; rfl
    | absent => left; rfl

/-- Oracle in which the working directory has disappeared. -/
def envBad : LoopEnv :=
  { preCwd := fun _ => PathKind.absent, iterCwd := fun _ _ => PathKind.absent,
    exitCode := fun _ => 0, logContent := fun _ => [] }

/-- Witness for C5 at a concrete missing working directory. -/
theorem run_verification_loop_missing_cwd_witness :
    (run_verification_loop envBad none "/gone" "001" "codex" 3 "DONE" "T1" none
      none).final_status = some "failed" ∧
    (run_verification_loop envBad none "/gone" "001" "codex" 3 "DONE" "T1" none
      none).workerCalls = [] ∧
    ((run_verification_loop envBad none "/gone" "001" "codex" 3 "DONE" "T1" none
      none).state.failure_reason = some ("execution_cwd does not exist: " ++ "/gone") ∨
     (run_verification_loop envBad none "/gone" "001" "codex" 3 "DONE" "T1" none
      none).state.failure_reason = some ("execution_cwd is not a directory: " ++ "/gone")) := by
  have h := (run_verification_loop_missing_cwd envBad none "/gone" "001" "codex" 3
    "DONE" "T1" none none).1 (by decide)
  exact ⟨h.1, h.2.1, h.2.2.2.2.1⟩

/-! ### Worker result classification: `_interpret_executor_result`
(sprint.py lines 1456-1475)

```python
def _interpret_executor_result(stdout: str, returncode: int) -> int:
    if returncode != 0:
        return returncode
    try:
        payload = json.loads(stdout)
    except Exception:
        return 2
    if not isinstance(payload, dict):
        return 2
    if payload.get("error"):
        return 2
    prompts = payload.get("prompts")
    if isinstance(prompts, list) and prompts:
        exec_info = (prompts[0] or {}).get("execution") or {}
        final_status = exec_info.get("final_status") or exec_info.get("status")
        if final_status and str(final_status).lower() not in {"completed"}:
            return 2
    return 0
```

JSON documents are embedded as `JValue` (numbers as `Int`; the values this
function inspects are strings, dicts and lists); the worker stdout enters
as its parse result (`none` = `json.loads` raised).  The embedding returns
`none` exactly where the Python raises an uncaught `AttributeError`: when
`prompts[0]` (or its `execution` value) is truthy but not a dict, `.get` is
called on a non-dict. -/

inductive JValue where
  | null
  | bool (b : Bool)
  | num (n : Int)
  | str (s : String)
  | arr (xs : List JValue)
  | obj (fields : List (String × JValue))

/-- Python truthiness of a JSON value. -/
def jtruthy : JValue → Bool
  | JValue.null => false
  | JValue.bool b => b
  | JValue.num n => n != 0
  | JValue.str s => s != ""
  | JValue.arr xs => !xs.isEmpty
  | JValue.obj fs => !fs.isEmpty

/-- `dict.get(k)` (keys are unique in the JSON dicts the worker emits). -/
def jget (fs : List (String × JValue)) (k : String) : Option JValue :=
  fs.lookup k

def pyTruthyField (fs : List (String × JValue)) (k : String) : Bool :=
  match jget fs k with
  | none => false
  | some v => jtruthy v

/-- `(v or {})` followed by use as a dict: the dict Python proceeds with,
or `none` when `v` is truthy but not a dict (so `.get` raises). -/
def pyDictOr : JValue → Option (List (String × JValue))
  | JValue.obj gs => some gs
  | v => if jtruthy v then none else some []

/-- Kernel-computable ASCII lowering (Python `str.lower` on the values at
hand). -/
def lowerStr (s : String) : String := String.mk (s.data.map Char.toLower)

/-- `str(v).lower() in {"completed"}`: only a string value can render as
`"completed"` (`str()` of None/booleans/numbers/lists/dicts never does). -/
def readsCompleted : JValue → Bool
  | JValue.str s => lowerStr s == "completed"
  | _ => false

/-- `exec_info.get("final_status") or exec_info.get("status")`. -/
def finalStatusField (hs : List (String × JValue)) : Option JValue :=
  match jget hs "final_status" with
  | some v => if jtruthy v then some v else jget hs "status"
  | none => jget hs "status"

/-- Embedding of `_interpret_executor_result`; `none` models an uncaught
exception. -/
def _interpret_executor_result (stdout : Option JValue) (returncode : Int) :
    Option Int :=
  if returncode ≠ 0 then some returncode
  else
    match stdout with
    | none => some 2
    | some (JValue.obj fs) =>
      if pyTruthyField fs "error" then some 2
      else
        match jget fs "prompts" with
        | some (JValue.arr (x :: _)) =>
          match pyDictOr x with
          | none => none
          | some gs =>
            match pyDictOr ((jget gs "execution").getD JValue.null) with
            | none => none
            | some hs =>
              match finalStatusField hs with
              | some v => if jtruthy v && !readsCompleted v then some 2 else some 0
              | none => some 0
        | _ => some 0
    | some _ => some 2

/-- The first prompt entry's execution final-status field as claim C6 reads
it: present only when the entry is an object carrying an `execution` object
(with the `final_status`-or-`status` fallback of the source). -/
def execFinalStatus : JValue → Option JValue
  | JValue.obj gs =>
    match jget gs "execution" with
    | some (JValue.obj hs) => finalStatusField hs
    | _ => none
  | _ => none

/-- The success condition exactly as claim C6 states it: exit code zero,
stdout parses as a JSON object, no truthy `error` field, and if the object
has a non-empty `prompts` list whose first entry has an execution
final-status field, that field reads `"completed"` case-insensitively. -/
def claimExpectsSuccess (stdout : Option JValue) (rc : Int) : Bool :=
  (rc == 0) &&
  match stdout with
  | some (JValue.obj fs) =>
    !pyTruthyField fs "error" &&
    (match jget fs "prompts" with
     | some (JValue.arr (x :: _)) =>
       match execFinalStatus x with
       | some v => readsCompleted v
       | none => true
     | _ => true)
  | _ => false

/-- The corrected success condition: as the claim, except that a present
but falsy final-status value also counts as success, and inputs on which
the code raises are excluded. -/
def amendedSuccessCond (stdout : Option JValue) (rc : Int) : Bool :=
  (rc == 0) &&
  match stdout with
  | some (JValue.obj fs) =>
    !pyTruthyField fs "error" &&
    (match jget fs "prompts" with
     | some (JValue.arr (x :: _)) =>
       match pyDictOr x with
       | none => false
       | some gs =>
         match pyDictOr ((jget gs "execution").getD JValue.null) with
         | none => false
         | some hs =>
           match finalStatusField hs with
           | some v => !jtruthy v || readsCompleted v
           | none => true
     | _ => true)
  | _ => false

/-- Inputs on which the Python function raises instead of returning: a
truthy non-dict first `prompts` entry, or a truthy non-dict `execution`
value, reached with exit code 0, a dict payload and no truthy error. -/
def crashCond (stdout : Option JValue) : Bool :=
  match stdout with
  | some (JValue.obj fs) =>
    !pyTruthyField fs "error" &&
    (match jget fs "prompts" with
     | some (JValue.arr (x :: _)) =>
       match pyDictOr x with
       | none => true
       | some gs => (pyDictOr ((jget gs "execution").getD JValue.null)).isNone
     | _ => false)
  | _ => false

/-- Counterexample to C6 as stated: with exit code 0 and stdout
`{"prompts": [5]}` every condition of the claim holds (the first entry has
no execution final-status field), yet the function neither returns 0 nor
any non-zero code — it raises `AttributeError` (`5 .get("execution")`). -/
theorem interpret_executor_result_counterexample :
    claimExpectsSuccess
      (some (JValue.obj [("prompts", JValue.arr [JValue.num 5])])) 0 = true ∧
    _interpret_executor_result
      (some (JValue.obj [("prompts", JValue.arr [JValue.num 5])])) 0 = none :=
  ⟨rfl, rfl⟩

/-- C6 (amended): `_interpret_executor_result` returns 0 iff the exit code
is zero, stdout parses as a JSON object, the object carries no truthy
`error` field, and — when it has a non-empty `prompts` list — the first
entry's execution final-status value (with the source's `status` fallback)
is absent, falsy, or reads `"completed"` case-insensitively; it raises
(returns no code) exactly on the crash inputs; and in every other case it
returns a non-zero code. -/
theorem interpret_executor_result_amended (stdout : Option JValue) (rc : Int) :
    (_interpret_executor_result stdout rc = some 0 ↔
      amendedSuccessCond stdout rc = true) ∧
    (_interpret_executor_result stdout rc = none ↔
      (rc = 0 ∧ crashCond stdout = true)) ∧
    (_interpret_executor_result stdout rc ≠ none →
      amendedSuccessCond stdout rc = false →
      ∃ k : Int, _interpret_executor_result stdout rc = some k ∧ k ≠ 0) := by
  by_cases hrc : rc = 0
  · subst hrc
    unfold _interpret_executor_result
    simp only [ne_eq, not_true_eq_false, if_neg, not_false_iff, if_true]
    unfold amendedSuccessCond crashCond
    simp only [beq_self_eq_true, Bool.true_and]
    match stdout with
    | none => simp
    | some JValue.null => simp
    | some (JValue.bool b) => simp
    | some (JValue.num n) => simp
    | some (JValue.str s) => simp
    | some (JValue.arr xs) => simp
    | some (JValue.obj fs) =>
      by_cases herr : pyTruthyField fs "error" = true
      · simp [herr]
      · simp only [herr, Bool.false_eq_true, if_false, Bool.not_false, Bool.true_and]
        rcases hp : jget fs "prompts" with _ | pv
        · simp
        · cases pv with
          | null => simp
          | bool b => simp
          | num n => simp
          | str s => simp
          | obj gs => simp
          | arr xs =>
            cases xs with
            | nil => simp
            | cons x xs =>
              rcases hdx : pyDictOr x with _ | gs
              · simp [hdx]
              · rcases hde : pyDictOr ((jget gs "execution").getD JValue.null)
                  with _ | hs
                · simp [hdx, hde]
                · rcases hfs : finalStatusField hs with _ | v
                  · simp [hdx, hde, hfs]
                  · by_cases htv : jtruthy v = true
                    · by_cases hcv : readsCompleted v = true
                      · simp [hdx, hde, hfs, htv, hcv]
                      · have hcv' : readsCompleted v = false := by
                          simpa using hcv
                        simp only [hdx, hde, hfs]
                        have hcond : (jtruthy v && !readsCompleted v) = true := by
                          rw [htv, hcv']
                          rfl
                        rw [if_pos hcond]
                        refine ⟨by simp [htv, hcv'], by simp [hde], ?_⟩
                        intro _ _
                        exact ⟨2, rfl, by norm_num⟩
                    · simp [hdx, hde, hfs, htv]
  · have h2 : _interpret_executor_result stdout rc = some rc := by
      unfold _interpret_executor_result
      rw [if_pos hrc]
    rw [h2]
    refine ⟨?_, ?_, ?_⟩
    · constructor
      · intro h
        exact absurd (Option.some_injective _ h) hrc
      · intro h
        simp [amendedSuccessCond, hrc] at h
    · constructor
      · intro h; cases h
      · rintro ⟨h, _⟩; exact absurd h hrc
    · intro _ _
      exact ⟨rc, rfl, hrc⟩

/-! ### Sprint execution state: `SprintState`, `save_state`, `load_state`
(sprint.py lines 177-241)

`to_dict` is `dataclasses.asdict` (fields in declaration order); `from_dict`
reads each key back with the source's defaults and `int(...)` conversions.
`save_state` writes `json.dumps(state.to_dict())` atomically under a file
lock and `load_state` parses the file back; the JSON text layer is the
identity on the documents `to_dict` emits, so persistence is embedded at
the document level (`save_state` produces the persisted document,
`load_state` consumes one).  Typed fields mirror the dataclass
declarations; `prompts`, `model_usage` and `options` hold arbitrary
JSON. -/

def STATE_SCHEMA_VERSION : Int := 1

structure SprintState where
  sprint_id : String
  created_at : String
  spec_hash : String
  spec_path : String
  prompts : List JValue
  current_phase : Int
  total_phases : Int
  model_usage : List (String × JValue)
  paused_at : Option String
  schema_version : Int
  output_dir : String
  plan_file : String
  phases : List (List String)
  dependencies : List (String × List String)
  options : List (String × JValue)

def asStr : JValue → Option String
  | JValue.str s => some s
  | _ => none

def asInt : JValue → Option Int
  | JValue.num n => some n
  | _ => none

def asArr : JValue → Option (List JValue)
  | JValue.arr xs => some xs
  | _ => none

def asObj : JValue → Option (List (String × JValue))
  | JValue.obj fs => some fs
  | _ => none

def asStrList : JValue → Option (List String)
  | JValue.arr xs => xs.mapM asStr
  | _ => none

def asPhases : JValue → Option (List (List String))
  | JValue.arr xs => xs.mapM asStrList
  | _ => none

def asDeps : JValue → Option (List (String × List String))
  | JValue.obj fs => fs.mapM (fun kv => (asStrList kv.2).map (fun l => (kv.1, l)))
  | _ => none

/-- Embedding of `SprintState.to_dict` (`dataclasses.asdict`). -/
def SprintState.to_dict (s : SprintState) : JValue :=
  JValue.obj [
    ("sprint_id", JValue.str s.sprint_id),
    ("created_at", JValue.str s.created_at),
    ("spec_hash", JValue.str s.spec_hash),
    ("spec_path", JValue.str s.spec_path),
    ("prompts", JValue.arr s.prompts),
    ("current_phase", JValue.num s.current_phase),
    ("total_phases", JValue.num s.total_phases),
    ("model_usage", JValue.obj s.model_usage),
    ("paused_at", match s.paused_at with
      | some t => JValue.str t
      | none => JValue.null),
    ("schema_version", JValue.num s.schema_version),
    ("output_dir", JValue.str s.output_dir),
    ("plan_file", JValue.str s.plan_file),
    ("phases", JValue.arr (s.phases.map (fun ph => JValue.arr (ph.map JValue.str)))),
    ("dependencies", JValue.obj (s.dependencies.map
      (fun kv => (kv.1, JValue.arr (kv.2.map JValue.str))))),
    ("options", JValue.obj s.options) ]

/-- Embedding of `SprintState.from_dict`; `none` models the `KeyError` on a
missing `sprint_id`/`created_at` and the conversion errors the typed fields
would raise. -/
def SprintState.from_dict (raw : JValue) : Option SprintState :=
  match raw with
  | JValue.obj fs =>
    match jget fs "sprint_id", jget fs "created_at" with
    | some (JValue.str sid), some (JValue.str cat) => do
      let spec_hash ← asStr ((jget fs "spec_hash").getD (JValue.str ""))
      let spec_path ← asStr ((jget fs "spec_path").getD (JValue.str "inline"))
      let prompts ← asArr ((jget fs "prompts").getD (JValue.arr []))
      let current_phase ← asInt ((jget fs "current_phase").getD (JValue.num 1))
      let total_phases ← asInt ((jget fs "total_phases").getD (JValue.num 0))
      let model_usage ← asObj ((jget fs "model_usage").getD (JValue.obj []))
      let paused_at : Option String :=
        match jget fs "paused_at" with
        | some (JValue.str t) => some t
        | _ => none
      let schema_version ← asInt ((jget fs "schema_version").getD
        (JValue.num STATE_SCHEMA_VERSION))
      let output_dir ← asStr ((jget fs "output_dir").getD (JValue.str "./prompts/"))
      let plan_file ← asStr ((jget fs "plan_file").getD
        (JValue.str "./sprint-plan.md"))
      let phases ← asPhases ((jget fs "phases").getD (JValue.arr []))
      let dependencies ← asDeps ((jget fs "dependencies").getD (JValue.obj []))
      let options ← asObj ((jget fs "options").getD (JValue.obj []))
      some { sprint_id := sid, created_at := cat, spec_hash := spec_hash,
             spec_path := spec_path, prompts := prompts,
             current_phase := current_phase, total_phases := total_phases,
             model_usage := model_usage, paused_at := paused_at,
             schema_version := schema_version, output_dir := output_dir,
             plan_file := plan_file, phases := phases,
             dependencies := dependencies, options := options }
    | _, _ => none
  | _ => none

/-- `save_state` at the document level (the atomic write and the advisory
lock are I/O around this document). -/
def save_state (s : SprintState) : JValue := s.to_dict

/-- `load_state` at the document level. -/
def load_state (doc : JValue) : Option SprintState := SprintState.from_dict doc

theorem asStrList_map (l : List String) :
    asStrList (JValue.arr (l.map JValue.str)) = some l := by
  induction l with
  | nil => rfl
  | cons a l ih =>
    simp only [asStrList, List.map_cons, List.mapM_cons] at ih ⊢
    simp only [asStr, Option.bind_eq_bind]
    cases hm : (l.map JValue.str).mapM asStr with
    | none => rw [hm] at ih; simp at ih
    | some l' =>
      rw [hm] at ih
      simp at ih
      simp [hm, ih]

theorem asPhases_map (ps : List (List String)) :
    asPhases (JValue.arr (ps.map (fun ph => JValue.arr (ph.map JValue.str))))
      = some ps := by
  induction ps with
  | nil => rfl
  | cons p ps ih =>
    simp only [asPhases, List.map_cons, List.mapM_cons] at ih ⊢
    cases hm : (ps.map (fun ph => JValue.arr (ph.map JValue.str))).mapM asStrList with
    | none => rw [hm] at ih; simp at ih
    | some l' =>
      rw [hm] at ih
      simp at ih
      simp [hm, ih, asStrList_map]

theorem asDeps_map (ds : List (String × List String)) :
    asDeps (JValue.obj (ds.map (fun kv => (kv.1, JValue.arr (kv.2.map JValue.str)))))
      = some ds := by
  induction ds with
  | nil => rfl
  | cons d ds ih =>
    simp only [asDeps, List.map_cons, List.mapM_cons] at ih ⊢
    cases hm : (ds.map (fun kv => (kv.1, JValue.arr (kv.2.map JValue.str)))).mapM
      (fun kv => (asStrList kv.2).map (fun l => (kv.1, l))) with
    | none => rw [hm] at ih; simp at ih
    | some l' =>
      rw [hm] at ih
      simp at ih
      simp [hm, ih, asStrList_map]

/-- C8: saving a `SprintState` and reloading the saved document yields the
state back field-for-field — every dataclass field, including the phase
list, the dependency graph, the prompts list, the phase pointer, the pause
marker and the options map, round-trips unchanged. -/
theorem save_load_roundtrip (s : SprintState) : load_state (save_state s) = some s := by
  rcases s with ⟨sid, cat, hash, path, prompts, cur, tot, mu, paused, ver, od, pf,
    ph, deps, opts⟩
  cases paused <;>
    simp [load_state, save_state, SprintState.to_dict, SprintState.from_dict, jget,
      List.lookup, asStr, asInt, asArr, asObj, asStrList_map, asPhases_map,
      asDeps_map]

theorem lookup_mem {β : Type} {l : List (String × β)} {k : String} {v : β}
    (h : l.lookup k = some v) : (k, v) ∈ l := by
  induction l with
  | nil => cases h
  | cons p l ih =>
    rcases p with ⟨a, b⟩
    rw [List.lookup] at h
    by_cases hk : (k == a) = true
    · rw [hk] at h
      simp only [Option.some.injEq] at h
      subst h
      have : k = a := by
        exact eq_of_beq hk
      subst this
      exact List.mem_cons_self _ _
    · rw [Bool.not_eq_true] at hk
      rw [hk] at h
      exact List.mem_cons_of_mem _ (ih h)

/-! ### Dependency-graph construction: `build_dependency_graph`
(sprint.py lines 810-850) and the replan rebuild (sprint.py lines 1227-1236)

`_parse_prompt_dependencies` (the regex extractor) enters as an explicit
function parameter `parse`, and file contents as an oracle `fileText`:
none of the claims settled here depend on the extractor's internals, and
the statements below hold for every extractor.  Prompt dicts are reduced
to the fields this code reads (`id` already stringified, `slug`,
`path`). -/

structure PromptMeta where
  id : String
  slug : Option String
  path : Option String

structure Analysis where
  prompt_dependencies : Option (List (String × List String))
  dependencies : List (String × List String)

/-- `str.zfill(3)` on the identifier strings at hand (digit strings). -/
def zfill3 (s : String) : String :=
  if s.length ≥ 3 then s
  else String.mk (List.replicate (3 - s.length) '0') ++ s

/-- `str.isdigit` on ASCII identifier strings. -/
def isdigitStr (s : String) : Bool := !s.data.isEmpty && s.data.all Char.isDigit

/-- The explicit-`prompt_dependencies` branch of `build_dependency_graph`
(sprint.py lines 813-824): dependency ids are zero-filled when numeric and
taken as given otherwise — with no self- or membership filtering. -/
def explicitGraph (pd : List (String × List String)) (prompts : List PromptMeta) :
    List (String × List String) :=
  prompts.map (fun p =>
    let pid := zfill3 p.id
    let r1 := (pd.lookup pid).getD []
    let raw := if r1.isEmpty then (pd.lookup p.id).getD [] else r1
    let deps := raw.map (fun d => if isdigitStr d then zfill3 d else d)
    (pid, sortStr deps.dedup))

/-- The slug-mapping branch of `build_dependency_graph` (sprint.py lines
826-839): analysis dependencies given per component slug are mapped to
prompt ids through `slug_to_id` (last slug wins, as in the Python dict
comprehension, hence the `reverse`). -/
def slugGraph (prompts : List PromptMeta) (dbs : List (String × List String)) :
    List (String × List String) :=
  let slug_to_id := (prompts.filterMap (fun q => match q.slug with
    | some sl => if sl = "" then none else some (sl, zfill3 q.id)
    | none => none)).reverse
  prompts.map (fun p =>
    let pid := zfill3 p.id
    let deps := (match p.slug with
      | some sl => (dbs.lookup sl).getD []
      | none => []).filterMap (fun ds => slug_to_id.lookup ds)
    (pid, sortStr deps.dedup))

/-- Embedding of `build_dependency_graph`. -/
def build_dependency_graph (parse : String → List String)
    (fileText : String → String) (prompts : List PromptMeta)
    (analysis : Analysis) : List (String × List String) :=
  match analysis.prompt_dependencies with
  | some pd => explicitGraph pd prompts
  | none =>
    let graph := slugGraph prompts analysis.dependencies
    if graph.all (fun kv => kv.2.isEmpty) then
      prompts.map (fun p => (zfill3 p.id,
        parse (match p.path with | some pa => fileText pa | none => "")))
    else graph

/-- The dependency rebuild of `cmd_replan` (sprint.py lines 1231-1235):
`deps[pid] = [d for d in _parse_prompt_dependencies(text) if d != pid]`. -/
def replan_dependencies (parse : String → List String)
    (fileText : String → String) (prompts : List PromptMeta) :
    List (String × List String) :=
  prompts.map (fun p =>
    let pid := zfill3 p.id
    (pid, (parse (match p.path with
      | some pa => fileText pa
      | none => "")).filter (fun d => decide (d ≠ pid))))

/-- Counterexample to C9 as stated: with explicit `prompt_dependencies`
`{"001": ["001"]}` for the single prompt `001`, `build_dependency_graph`
returns a graph in which `001` depends on itself, violating the invariant
"no entry's dependency list contains the entry's own identifier". -/
theorem build_dependency_graph_counterexample :
    build_dependency_graph (fun _ => []) (fun _ => "")
      [⟨"001", none, none⟩] ⟨some [("001", ["001"])], []⟩
      = [("001", ["001"])] ∧
    ¬ (∀ kv ∈ build_dependency_graph (fun _ => []) (fun _ => "")
      [⟨"001", none, none⟩] ⟨some [("001", ["001"])], []⟩, kv.1 ∉ kv.2) := by
  constructor
  · decide
  · intro h
    have := h ("001", ["001"]) (by decide)
    simp at this

/-- C9 (amended): the graph rebuilt by replan never lets an entry depend on
itself (for any extractor output), and in the slug-mapping branch of
`build_dependency_graph` every identifier appearing in a dependency list is
itself a key of the graph; `build_dependency_graph` returns exactly that
slug graph whenever no explicit `prompt_dependencies` is given and the slug
graph is not entirely empty.  (The explicit-`prompt_dependencies` branch
and the content-parsing fallback perform no self- or membership filtering,
and replan performs no membership filtering — the claim's full invariant
does not hold there, see the counterexample.) -/
theorem dependency_graph_amended :
    (∀ (parse : String → List String) (fileText : String → String)
      (prompts : List PromptMeta),
      ∀ kv ∈ replan_dependencies parse fileText prompts, kv.1 ∉ kv.2) ∧
    (∀ (prompts : List PromptMeta) (dbs : List (String × List String)),
      ∀ kv ∈ slugGraph prompts dbs, ∀ d ∈ kv.2,
        ∃ kv2 ∈ slugGraph prompts dbs, kv2.1 = d) ∧
    (∀ (parse : String → List String) (fileText : String → String)
      (prompts : List PromptMeta) (analysis : Analysis),
      analysis.prompt_dependencies = none →
      ¬ (slugGraph prompts analysis.dependencies).all (fun kv => kv.2.isEmpty) = true →
      build_dependency_graph parse fileText prompts analysis =
        slugGraph prompts analysis.dependencies) := by
  refine ⟨?_, ?_, ?_⟩
  · intro parse fileText prompts kv hkv
    rcases List.mem_map.mp hkv with ⟨p, _, rfl⟩
    simp only []
    intro hmem
    rcases List.mem_filter.mp hmem with ⟨_, hdec⟩
    simp at hdec
  · intro prompts dbs kv hkv d hd
    simp only [slugGraph] at hkv
    rcases List.mem_map.mp hkv with ⟨p, hp, rfl⟩
    simp only [] at hd
    have hd1 : d ∈ ((match p.slug with
        | some sl => (dbs.lookup sl).getD []
        | none => []).filterMap (fun (ds : String) =>
          ((prompts.filterMap (fun (q : PromptMeta) => match q.slug with
            | some sl => if sl = "" then none else some (sl, zfill3 q.id)
            | none => none)).reverse).lookup ds)) := by
      have := mem_sortStr.mp hd
      exact List.mem_dedup.mp this
    rcases List.mem_filterMap.mp hd1 with ⟨ds, _, hlook⟩
    have hmem := lookup_mem hlook
    rw [List.mem_reverse] at hmem
    rcases List.mem_filterMap.mp hmem with ⟨q, hq, hfq⟩
    have hdq : d = zfill3 q.id := by
      rcases hsl : q.slug with _ | sl
      · simp only [hsl] at hfq
        cases hfq
      · simp only [hsl] at hfq
        by_cases hsl0 : sl = ""
        · rw [if_pos hsl0] at hfq
          cases hfq
        · rw [if_neg hsl0] at hfq
          simp only [Option.some.injEq, Prod.mk.injEq] at hfq
          exact hfq.2.symm
    refine ⟨(zfill3 q.id,
      sortStr ((match q.slug with
        | some sl => (dbs.lookup sl).getD []
        | none => []).filterMap (fun (ds : String) =>
          ((prompts.filterMap (fun (r : PromptMeta) => match r.slug with
            | some sl => if sl = "" then none else some (sl, zfill3 r.id)
            | none => none)).reverse).lookup ds)).dedup), ?_, hdq.symm⟩
    simp only [slugGraph]
    exact List.mem_map.mpr ⟨q, hq, rfl⟩
  · intro parse fileText prompts analysis hpd hne
    rw [build_dependency_graph, hpd]
    simp only []
    rw [if_neg hne]

/-- Witness for the amended C9 at a concrete two-prompt analysis graph. -/
theorem dependency_graph_amended_witness :
    (∀ kv ∈ replan_dependencies (fun _ => ["001", "002"]) (fun _ => "x")
      [⟨"001", none, some "a.md"⟩, ⟨"002", none, some "b.md"⟩], kv.1 ∉ kv.2) ∧
    build_dependency_graph (fun _ => []) (fun _ => "")
      [⟨"001", some "auth", none⟩, ⟨"002", some "database", none⟩]
      ⟨none, [("auth", ["database"])]⟩ =
      slugGraph [⟨"001", some "auth", none⟩, ⟨"002", some "database", none⟩]
        [("auth", ["database"])] := by
  refine ⟨?_, ?_⟩
  · exact dependency_graph_amended.1 (fun _ => ["001", "002"]) (fun _ => "x")
      [⟨"001", none, some "a.md"⟩, ⟨"002", none, some "b.md"⟩]
  · exact dependency_graph_amended.2.2 (fun _ => []) (fun _ => "")
      [⟨"001", some "auth", none⟩, ⟨"002", some "database", none⟩]
      ⟨none, [("auth", ["database"])]⟩ rfl (by decide)

/-! ### Batch dispatch: `auto_execute` (sprint.py lines 1503-1633)

The execution state is reduced to the slice `auto_execute` reads and
writes: each prompt's (zero-filled) id and status, the phase list, and the
phase pointer.  The worker pipeline for one item — `_build_executor_command`,
`subprocess.Popen`, `communicate`, `_interpret_executor_result` — enters as
the oracle `runPrompt : id → final return code` (the claims hold for every
oracle).  The model-availability probe is modelled in its degraded
"collaborator absent" mode (`_cclimits_availability() == {}`, a no-op) and
worktree provisioning is disabled; neither touches statuses, phases or the
phase pointer.  `saves` records each `save_state` call (status-update and
usage-update saves of one item are coalesced — both persist the same
statuses). -/

structure ExecState where
  prompts : List (String × String)
  phases : List (List String)
  current_phase : Int
  deriving DecidableEq

structure ExecResult where
  state : ExecState
  launched : List String
  saves : List ExecState
  halted : Bool
  deriving DecidableEq

/-- The status slice of `update_prompt_status` (sprint.py lines 240-247):
sets the status of every prompt whose id matches. -/
def update_prompt_status (ps : List (String × String)) (pid status : String) :
    List (String × String) :=
  ps.map (fun q => if q.1 = pid then (q.1, status) else q)

/-- `for p in batch: update_prompt_status(state, pid, "in_progress")`. -/
def markBatch : List String → List (String × String) → List (String × String)
  | [], ps => ps
  | pid :: rest, ps => markBatch rest (update_prompt_status ps pid "in_progress")

/-- The wait-and-record loop over one batch: classify each worker result in
launch order, update the item's status and persist. -/
def runResults (runPrompt : String → Int) :
    List String → ExecState → List ExecState → ExecState × List ExecState
  | [], st, saves => (st, saves)
  | pid :: rest, st, saves =>
    let rc := runPrompt pid
    let status := if rc = 0 then "completed" else "failed"
    let st2 := { st with prompts := update_prompt_status st.prompts pid status }
    runResults runPrompt rest st2 (saves ++ [st2])

/-- One batch: mark `in_progress`, persist, launch workers, wait for each
and persist its result. -/
def runBatch (runPrompt : String → Int) (st : ExecState) (batch : List String) :
    ExecState × List ExecState :=
  let st1 := { st with prompts := markBatch batch st.prompts }
  runResults runPrompt batch st1 [st1]

/-- `range(0, len(runnable), max_parallel)` batching. -/
def chunksF : Nat → Nat → List String → List (List String)
  | 0, _, _ => []
  | _ + 1, _, [] => []
  | fuel + 1, c, l => l.take c :: chunksF fuel c (l.drop c)

/-- The per-phase batch loop with the halt-on-failure check
(`if any(p.get("status") == "failed" for p in batch): ... return`). -/
def runBatches (runPrompt : String → Int) :
    List (List String) → ExecState → List String → List ExecState →
      ExecState × List String × List ExecState × Bool
  | [], st, launched, saves => (st, launched, saves, false)
  | batch :: rest, st, launched, saves =>
    let r := runBatch runPrompt st batch
    let launched2 := launched ++ batch
    let saves2 := saves ++ r.2
    if batch.any (fun pid => decide ((r.1.prompts.lookup pid).getD "" = "failed")) then
      (r.1, launched2, saves2, true)
    else runBatches runPrompt rest r.1 launched2 saves2

/-- The `while phase_index <= len(state.phases)` loop of `auto_execute`,
with fuel (each pass advances the index or returns). -/
def autoLoop (runPrompt : String → Int) (max_parallel : Nat)
    (phases : List (List String)) :
    Nat → Nat → ExecState → List String → List ExecState → ExecResult
  | 0, _, st, launched, saves =>
    { state := { st with current_phase := (phases.length : Int) + 1 },
      launched := launched,
      saves := saves ++ [{ st with current_phase := (phases.length : Int) + 1 }],
      halted := false }
  | fuel + 1, idx, st, launched, saves =>
    if phases.length < idx then
      { state := { st with current_phase := (phases.length : Int) + 1 },
        launched := launched,
        saves := saves ++ [{ st with current_phase := (phases.length : Int) + 1 }],
        halted := false }
    else
      let st1 := { st with current_phase := (idx : Int) }
      let saves1 := saves ++ [st1]
      let phase := phases.getD (idx - 1) []
      let runnable := phase.filter
        (fun pid => decide ((st1.prompts.lookup pid).getD "" = "pending"))
      if runnable.isEmpty then
        autoLoop runPrompt max_parallel phases fuel (idx + 1) st1 launched saves1
      else
        let r := runBatches runPrompt (chunksF runnable.length max_parallel runnable)
          st1 launched saves1
        if r.2.2.2 then
          { state := r.1, launched := r.2.1, saves := r.2.2.1, halted := true }
        else
          autoLoop runPrompt max_parallel phases fuel (idx + 1) r.1 r.2.1 r.2.2.1

/-- Embedding of `auto_execute` (core loop; see the section comment). -/
def auto_execute (runPrompt : String → Int) (max_parallel : Nat)
    (st : ExecState) : ExecResult :=
  autoLoop runPrompt max_parallel st.phases (st.phases.length + 2)
    (max st.current_phase 1).toNat st [] []

theorem take_flatten_mono (phs : List (List String)) {k k' : Nat} {x : String}
    (h : x ∈ (phs.take k).flatten) (hkk : k ≤ k') : x ∈ (phs.take k').flatten := by
  rcases (mem_take_flatten_iff phs k x).mp h with ⟨j, hj, hjk, hmem⟩
  exact (mem_take_flatten_iff phs k' x).mpr ⟨j, hj, by omega, hmem⟩

theorem mem_get_take (phs : List (List String)) {j k : Nat} {x : String}
    (hj : j < phs.length) (hx : x ∈ phs.get ⟨j, hj⟩) (hjk : j < k) :
    x ∈ (phs.take k).flatten :=
  (mem_take_flatten_iff phs k x).mpr ⟨j, hj, hjk, hx⟩

theorem nodup_of_mem_flatten {l : List String} {L : List (List String)}
    (hl : l ∈ L) (hnd : L.flatten.Nodup) : l.Nodup := by
  induction L with
  | nil => cases hl
  | cons l0 L ih =>
    rw [List.flatten_cons] at hnd
    rcases List.mem_cons.mp hl with rfl | hl'
    · exact hnd.of_append_left
    · exact ih hl' hnd.of_append_right

theorem take_flatten_not_in_later (phs : List (List String)) {k j : Nat} {x : String}
    (hnd : phs.flatten.Nodup) (hx : x ∈ (phs.take k).flatten) (hkj : k ≤ j)
    (hj : j < phs.length) : x ∉ phs.get ⟨j, hj⟩ := by
  intro hmem
  have hxj : x ∈ (phs.drop j).flatten := by
    rw [List.drop_eq_getElem_cons hj, List.flatten_cons]
    apply List.mem_append.mpr
    left
    simpa [List.get_eq_getElem] using hmem
  have hxk : x ∈ (phs.take j).flatten := take_flatten_mono phs hx hkj
  have hnd' : ((phs.take j).flatten ++ (phs.drop j).flatten).Nodup := by
    rw [← List.flatten_append, List.take_append_drop]
    exact hnd
  exact List.disjoint_of_nodup_append hnd' hxk hxj

theorem chunksF_flatten (c : Nat) (hc : 1 ≤ c) :
    ∀ (fuel : Nat) (l : List String), l.length ≤ fuel →
      (chunksF fuel c l).flatten = l := by
  intro fuel
  induction fuel with
  | zero =>
    intro l hl
    have : l = [] := by
      cases l with
      | nil => rfl
      | cons a t => simp at hl
    subst this
    rfl
  | succ fuel ih =>
    intro l hl
    cases l with
    | nil => rfl
    | cons a t =>
      show ((a :: t).take c :: chunksF fuel c ((a :: t).drop c)).flatten = a :: t
      rw [List.flatten_cons]
      rw [ih ((a :: t).drop c) (by
        rw [List.length_drop]
        simp only [List.length_cons] at hl ⊢
        omega)]
      exact List.take_append_drop c (a :: t)

theorem update_lookup_ne (ps : List (String × String)) (pid status q : String)
    (h : q ≠ pid) : (update_prompt_status ps pid status).lookup q = ps.lookup q := by
  induction ps with
  | nil => rfl
  | cons p ps ih =>
    rcases p with ⟨a, b⟩
    rw [update_prompt_status, List.map_cons]
    by_cases ha : a = pid
    · subst ha
      rw [if_pos rfl]
      rw [List.lookup, List.lookup]
      have hq : (q == a) = false := by
        rw [beq_eq_false_iff_ne]
        exact h
      rw [hq]
      exact ih
    · rw [if_neg ha]
      rw [List.lookup, List.lookup]
      by_cases hq : (q == a) = true
      · rw [hq]
      · rw [Bool.not_eq_true] at hq
        rw [hq]
        exact ih

theorem update_lookup_self (ps : List (String × String)) (pid status : String) :
    (update_prompt_status ps pid status).lookup pid =
      (ps.lookup pid).map (fun _ => status) := by
  induction ps with
  | nil => rfl
  | cons p ps ih =>
    rcases p with ⟨a, b⟩
    rw [update_prompt_status, List.map_cons]
    by_cases ha : a = pid
    · subst ha
      rw [if_pos rfl]
      rw [List.lookup, List.lookup]
      have hq : (a == a) = true := beq_self_eq_true a
      rw [hq]
      rfl
    · rw [if_neg ha]
      rw [List.lookup, List.lookup]
      by_cases hq : (pid == a) = true
      · exact absurd (eq_of_beq hq).symm ha
      · rw [Bool.not_eq_true] at hq
        rw [hq]
        exact ih

theorem markBatch_lookup_ne :
    ∀ (batch : List String) (ps : List (String × String)) (q : String),
      q ∉ batch → (markBatch batch ps).lookup q = ps.lookup q := by
  intro batch
  induction batch with
  | nil => intro ps q _; rfl
  | cons pid rest ih =>
    intro ps q hq
    rw [markBatch]
    rw [ih _ q (fun h => hq (List.mem_cons_of_mem _ h))]
    exact update_lookup_ne ps pid _ q (fun h => hq (h ▸ List.mem_cons_self _ _))

theorem markBatch_lookup_mem :
    ∀ (batch : List String) (ps : List (String × String)) (q : String),
      q ∈ batch → (markBatch batch ps).lookup q =
        (ps.lookup q).map (fun _ => "in_progress") := by
  intro batch
  induction batch with
  | nil => intro ps q hq; cases hq
  | cons pid rest ih =>
    intro ps q hq
    rw [markBatch]
    by_cases hqr : q ∈ rest
    · rw [ih _ q hqr]
      by_cases hqp : q = pid
      · subst hqp
        rw [update_lookup_self]
        rw [Option.map_map]
        rfl
      · rw [update_lookup_ne ps pid _ q hqp]
    · rcases List.mem_cons.mp hq with rfl | h
      · rw [markBatch_lookup_ne rest _ q hqr]
        exact update_lookup_self ps q _
      · exact absurd h hqr

theorem runResults_frame (rp : String → Int) :
    ∀ (pids : List String) (st : ExecState) (saves : List ExecState),
      (runResults rp pids st saves).1.phases = st.phases ∧
      (runResults rp pids st saves).1.current_phase = st.current_phase := by
  intro pids
  induction pids with
  | nil => intro st saves; exact ⟨rfl, rfl⟩
  | cons pid rest ih =>
    intro st saves
    rw [runResults]
    exact ih _ _

theorem runResults_lookup_ne (rp : String → Int) :
    ∀ (pids : List String) (st : ExecState) (saves : List ExecState) (q : String),
      q ∉ pids →
      (runResults rp pids st saves).1.prompts.lookup q = st.prompts.lookup q := by
  intro pids
  induction pids with
  | nil => intro st saves q _; rfl
  | cons pid rest ih =>
    intro st saves q hq
    rw [runResults]
    rw [ih _ _ q (fun h => hq (List.mem_cons_of_mem _ h))]
    exact update_lookup_ne st.prompts pid _ q (fun h => hq (h ▸ List.mem_cons_self _ _))

theorem runResults_lookup_mem (rp : String → Int) :
    ∀ (pids : List String) (st : ExecState) (saves : List ExecState) (pid : String),
      pids.Nodup → pid ∈ pids →
      (runResults rp pids st saves).1.prompts.lookup pid =
        (st.prompts.lookup pid).map
          (fun _ => if rp pid = 0 then "completed" else "failed") := by
  intro pids
  induction pids with
  | nil => intro st saves pid _ hm; cases hm
  | cons p0 rest ih =>
    intro st saves pid hnd hm
    rw [runResults]
    rcases List.mem_cons.mp hm with rfl | hrest
    · have hnot : pid ∉ rest := (List.nodup_cons.mp hnd).1
      rw [runResults_lookup_ne rp rest _ _ pid hnot]
      simp only []
      exact update_lookup_self st.prompts pid _
    · rw [ih _ _ pid (List.nodup_cons.mp hnd).2 hrest]
      simp only []
      congr 1
      exact update_lookup_ne st.prompts p0 _ pid
        (fun h => (List.nodup_cons.mp hnd).1 (h ▸ hrest))

theorem runResults_saves_last (rp : String → Int) :
    ∀ (pids : List String) (st : ExecState) (saves : List ExecState),
      (runResults rp pids st (saves ++ [st])).2.getLast? =
        some (runResults rp pids st (saves ++ [st])).1 := by
  intro pids
  induction pids with
  | nil =>
    intro st saves
    exact List.getLast?_concat _
  | cons pid rest ih =>
    intro st saves
    rw [runResults]
    exact ih _ (saves ++ [st])

theorem runBatch_frame (rp : String → Int) (st : ExecState) (batch : List String) :
    (runBatch rp st batch).1.phases = st.phases ∧
    (runBatch rp st batch).1.current_phase = st.current_phase := by
  rw [runBatch]
  exact runResults_frame rp batch _ _

theorem runBatch_lookup_ne (rp : String → Int) (st : ExecState) (batch : List String)
    (q : String) (hq : q ∉ batch) :
    (runBatch rp st batch).1.prompts.lookup q = st.prompts.lookup q := by
  rw [runBatch]
  rw [runResults_lookup_ne rp batch _ _ q hq]
  simp only []
  exact markBatch_lookup_ne batch st.prompts q hq

theorem runBatch_lookup_mem (rp : String → Int) (st : ExecState) (batch : List String)
    (pid : String) (hnd : batch.Nodup) (hm : pid ∈ batch) :
    (runBatch rp st batch).1.prompts.lookup pid =
      (st.prompts.lookup pid).map
        (fun _ => if rp pid = 0 then "completed" else "failed") := by
  rw [runBatch]
  rw [runResults_lookup_mem rp batch _ _ pid hnd hm]
  simp only []
  rw [markBatch_lookup_mem batch st.prompts pid hm]
  rw [Option.map_map]
  rfl

theorem runBatch_saves_last (rp : String → Int) (st : ExecState) (batch : List String) :
    (runBatch rp st batch).2.getLast? = some (runBatch rp st batch).1 := by
  rw [runBatch]
  have := runResults_saves_last rp batch
    { st with prompts := markBatch batch st.prompts } []
  simpa using this

theorem runBatch_saves_ne_nil (rp : String → Int) (st : ExecState)
    (batch : List String) : (runBatch rp st batch).2 ≠ [] := by
  intro h
  have := runBatch_saves_last rp st batch
  rw [h] at this
  cases this

/-- Invariants of the per-phase batch loop relative to its inputs. -/
def BatchInv (rp : String → Int) (batches : List (List String)) (st : ExecState)
    (launched : List String)
    (res : ExecState × List String × List ExecState × Bool) : Prop :=
  (∀ pid ∈ launched, pid ∈ res.2.1) ∧
  (res.2.2.2 = true ↔ ∃ pid ∈ res.2.1, rp pid ≠ 0) ∧
  (res.2.2.2 = true → ∃ pid ∈ batches.flatten, pid ∈ res.2.1 ∧ rp pid ≠ 0 ∧
    res.1.prompts.lookup pid = some "failed") ∧
  (∀ pid ∈ res.2.1, pid ∈ launched ∨ pid ∈ batches.flatten) ∧
  (∀ q, q ∉ res.2.1 → res.1.prompts.lookup q = st.prompts.lookup q) ∧
  (res.2.2.2 = true → res.2.2.1.getLast? = some res.1) ∧
  res.1.phases = st.phases ∧
  res.1.current_phase = st.current_phase

theorem runBatches_spec (rp : String → Int) :
    ∀ (batches : List (List String)) (st : ExecState) (launched : List String)
      (saves : List ExecState),
      (∀ pid ∈ batches.flatten, st.prompts.lookup pid = some "pending") →
      batches.flatten.Nodup →
      (∀ pid ∈ launched, rp pid = 0) →
      BatchInv rp batches st launched (runBatches rp batches st launched saves) := by
  intro batches
  induction batches with
  | nil =>
    intro st launched saves _ _ hacc
    refine ⟨fun pid h => h, ?_, ?_, ?_, fun q _ => rfl, ?_, rfl, rfl⟩
    · constructor
      · intro h; cases h
      · rintro ⟨pid, hpid, hrc⟩
        exact absurd (hacc pid hpid) hrc
    · intro h; cases h
    · intro pid h; exact Or.inl h
    · intro h; cases h
  | cons batch rest ih =>
    intro st launched saves hpend hnd hacc
    rw [List.flatten_cons] at hpend hnd
    have hbnd : batch.Nodup := hnd.of_append_left
    have hrnd : rest.flatten.Nodup := hnd.of_append_right
    have hdisj := List.disjoint_of_nodup_append hnd
    have hlook : ∀ pid ∈ batch, (runBatch rp st batch).1.prompts.lookup pid =
        some (if rp pid = 0 then "completed" else "failed") := by
      intro pid hpid
      rw [runBatch_lookup_mem rp st batch pid hbnd hpid]
      rw [hpend pid (List.mem_append.mpr (Or.inl hpid))]
      rfl
    have hany_iff : (batch.any fun pid =>
        decide (((runBatch rp st batch).1.prompts.lookup pid).getD "" = "failed"))
          = true ↔ ∃ pid ∈ batch, rp pid ≠ 0 := by
      constructor
      · intro h
        rcases List.any_eq_true.mp h with ⟨pid, hpid, hdec⟩
        rw [hlook pid hpid] at hdec
        simp only [Option.getD_some, decide_eq_true_eq] at hdec
        by_cases hrc : rp pid = 0
        · rw [if_pos hrc] at hdec
          exact absurd hdec (by decide)
        · exact ⟨pid, hpid, hrc⟩
      · rintro ⟨pid, hpid, hrc⟩
        apply List.any_eq_true.mpr
        refine ⟨pid, hpid, ?_⟩
        rw [hlook pid hpid]
        simp only [Option.getD_some, decide_eq_true_eq]
        rw [if_neg hrc]
    rw [runBatches]
    by_cases hany : (batch.any fun pid =>
        decide (((runBatch rp st batch).1.prompts.lookup pid).getD "" = "failed"))
          = true
    · rw [if_pos hany]
      rcases hany_iff.mp hany with ⟨pf, hpf, hrcf⟩
      refine ⟨?_, ?_, ?_, ?_, ?_, ?_, ?_, ?_⟩
      · intro pid h
        exact List.mem_append.mpr (Or.inl h)
      · constructor
        · intro _
          exact ⟨pf, List.mem_append.mpr (Or.inr hpf), hrcf⟩
        · intro _; rfl
      · intro _
        refine ⟨pf, List.mem_append.mpr (Or.inl hpf),
          List.mem_append.mpr (Or.inr hpf), hrcf, ?_⟩
        rw [hlook pf hpf, if_neg hrcf]
      · intro pid h
        rcases List.mem_append.mp h with h1 | h1
        · exact Or.inl h1
        · exact Or.inr (List.mem_append.mpr (Or.inl h1))
      · intro q hq
        have hqb : q ∉ batch := fun h => hq (List.mem_append.mpr (Or.inr h))
        exact runBatch_lookup_ne rp st batch q hqb
      · intro _
        rw [List.getLast?_append_of_ne_nil _ (runBatch_saves_ne_nil rp st batch)]
        exact runBatch_saves_last rp st batch
      · exact (runBatch_frame rp st batch).1
      · exact (runBatch_frame rp st batch).2
    · rw [if_neg hany]
      have hall : ∀ pid ∈ batch, rp pid = 0 := by
        intro pid hpid
        by_contra hrc
        exact hany (hany_iff.mpr ⟨pid, hpid, hrc⟩)
      have hpend2 : ∀ pid ∈ rest.flatten,
          (runBatch rp st batch).1.prompts.lookup pid = some "pending" := by
        intro pid hpid
        rw [runBatch_lookup_ne rp st batch pid (fun h => hdisj h hpid)]
        exact hpend pid (List.mem_append.mpr (Or.inr hpid))
      have hacc2 : ∀ pid ∈ launched ++ batch, rp pid = 0 := by
        intro pid hpid
        rcases List.mem_append.mp hpid with h1 | h1
        · exact hacc pid h1
        · exact hall pid h1
      obtain ⟨ih1, ih2, ih3, ih4, ih5, ih6, ih7, ih8⟩ :=
        ih (runBatch rp st batch).1 (launched ++ batch)
          (saves ++ (runBatch rp st batch).2) hpend2 hrnd hacc2
      refine ⟨?_, ih2, ?_, ?_, ?_, ih6, ?_, ?_⟩
      · intro pid h
        exact ih1 pid (List.mem_append.mpr (Or.inl h))
      · intro h
        rcases ih3 h with ⟨pid, hpid, hrest⟩
        exact ⟨pid, List.mem_append.mpr (Or.inr hpid), hrest⟩
      · intro pid h
        rcases ih4 pid h with h1 | h1
        · rcases List.mem_append.mp h1 with h2 | h2
          · exact Or.inl h2
          · exact Or.inr (List.mem_append.mpr (Or.inl h2))
        · exact Or.inr (List.mem_append.mpr (Or.inr h1))
      · intro q hq
        rw [ih5 q hq]
        have hqb : q ∉ batch := by
          intro h
          exact hq (ih1 q (List.mem_append.mpr (Or.inr h)))
        exact runBatch_lookup_ne rp st batch q hqb
      · rw [ih7]
        exact (runBatch_frame rp st batch).1
      · rw [ih8]
        exact (runBatch_frame rp st batch).2

/-- Invariants of the phase loop of `auto_execute` relative to its inputs. -/
def AutoInv (rp : String → Int) (phases : List (List String)) (st : ExecState)
    (launched : List String) (res : ExecResult) : Prop :=
  (∀ pid ∈ launched, pid ∈ res.launched) ∧
  (res.halted = true ↔ ∃ pid ∈ res.launched, rp pid ≠ 0) ∧
  (res.halted = true →
    1 ≤ res.state.current_phase ∧
    res.state.current_phase.toNat ≤ phases.length ∧
    ∃ pid ∈ phases.getD (res.state.current_phase.toNat - 1) [],
      pid ∈ res.launched ∧ rp pid ≠ 0 ∧
      res.state.prompts.lookup pid = some "failed") ∧
  (res.halted = true → ∀ pid ∈ res.launched,
    pid ∈ (phases.take res.state.current_phase.toNat).flatten) ∧
  (res.halted = true → res.saves.getLast? = some res.state) ∧
  (∀ q, q ∉ res.launched → res.state.prompts.lookup q = st.prompts.lookup q) ∧
  res.state.phases = st.phases

theorem autoLoop_spec (rp : String → Int) (mp : Nat) (phases : List (List String))
    (hmp : 1 ≤ mp) (hnd : phases.flatten.Nodup) :
    ∀ (fuel idx : Nat) (st : ExecState) (launched : List String)
      (saves : List ExecState),
      1 ≤ idx →
      (∀ pid ∈ launched, rp pid = 0) →
      (∀ pid ∈ launched, pid ∈ (phases.take (idx - 1)).flatten) →
      AutoInv rp phases st launched
        (autoLoop rp mp phases fuel idx st launched saves) := by
  intro fuel
  induction fuel with
  | zero =>
    intro idx st launched saves _ hacc _
    rw [autoLoop]
    refine ⟨fun pid h => h, ?_, ?_, ?_, ?_, fun q _ => rfl, rfl⟩
    · constructor
      · intro h; cases h
      · rintro ⟨pid, hpid, hrc⟩; exact absurd (hacc pid hpid) hrc
    · intro h; cases h
    · intro h; cases h
    · intro h; cases h
  | succ fuel ih =>
    intro idx st launched saves hidx hacc hlau
    rw [autoLoop]
    by_cases hgt : phases.length < idx
    · rw [if_pos hgt]
      refine ⟨fun pid h => h, ?_, ?_, ?_, ?_, fun q _ => rfl, rfl⟩
      · constructor
        · intro h; cases h
        · rintro ⟨pid, hpid, hrc⟩; exact absurd (hacc pid hpid) hrc
      · intro h; cases h
      · intro h; cases h
      · intro h; cases h
    · rw [if_neg hgt]
      simp only []
      set st1 : ExecState := { st with current_phase := (idx : Int) } with hst1
      set runnable := (phases.getD (idx - 1) []).filter
        (fun pid => decide ((st1.prompts.lookup pid).getD "" = "pending"))
        with hrunnable
      by_cases hrun : runnable.isEmpty
      · rw [if_pos hrun]
        have hres := ih (idx + 1) st1 launched (saves ++ [st1])
          (by omega) hacc
          (by
            intro pid h
            exact take_flatten_mono phases (hlau pid h) (by omega))
        obtain ⟨c1, c2, c3, c4, c5, c6, c7⟩ := hres
        exact ⟨c1, c2, c3, c4, c5, c6, c7⟩
      · rw [if_neg hrun]
        set batches := chunksF runnable.length mp runnable with hbatches
        set r := runBatches rp batches st1 launched (saves ++ [st1]) with hr
        have hlen1 : idx - 1 < phases.length := by
          by_contra hge
          apply hrun
          rw [hrunnable]
          rw [List.getD_eq_default _ _ (by omega)]
          rfl
        have hget : phases.getD (idx - 1) [] = phases.get ⟨idx - 1, hlen1⟩ :=
          List.getD_eq_get _ _ hlen1
        have hphase_nd : (phases.getD (idx - 1) []).Nodup := by
          rw [hget]
          exact nodup_of_mem_flatten (List.get_mem _ _ _) hnd
        have hrun_nd : runnable.Nodup := by
          rw [hrunnable]
          exact hphase_nd.filter _
        have hchunks : batches.flatten = runnable := by
          rw [hbatches]
          exact chunksF_flatten mp hmp _ _ (le_refl _)
        have hpend : ∀ pid ∈ batches.flatten, st1.prompts.lookup pid
            = some "pending" := by
          rw [hchunks]
          intro pid hpid
          rw [hrunnable] at hpid
          have hdec := (List.mem_filter.mp hpid).2
          simp only [decide_eq_true_eq] at hdec
          cases hlk : st1.prompts.lookup pid with
          | none =>
            rw [hlk] at hdec
            exact absurd hdec (by decide)
          | some s =>
            rw [hlk] at hdec
            simp only [Option.getD_some] at hdec
            rw [hdec]
        obtain ⟨b1, b2, b3, b4, b5, b6, b7, b8⟩ := runBatches_spec rp
          batches st1 launched (saves ++ [st1]) hpend
          (by rw [hchunks]; exact hrun_nd) hacc
        rw [← hr] at b1 b2 b3 b4 b5 b6 b7 b8
        by_cases hhalt : r.2.2.2 = true
        · rw [if_pos hhalt]
          have hcur : r.1.current_phase = (idx : Int) := b8
          refine ⟨b1, ?_, ?_, ?_, ?_, ?_, b7⟩
          · exact Iff.intro (fun _ => b2.mp hhalt) (fun _ => rfl)
          · intro _
            refine ⟨?_, ?_, ?_⟩
            · show 1 ≤ r.1.current_phase
              rw [hcur]
              exact_mod_cast hidx
            · show r.1.current_phase.toNat ≤ phases.length
              rw [hcur]
              simp only [Int.toNat_ofNat]
              omega
            · rcases b3 hhalt with ⟨pid, hpf, hpl, hprc, hpst⟩
              rw [hchunks, hrunnable] at hpf
              refine ⟨pid, ?_, hpl, hprc, hpst⟩
              show pid ∈ phases.getD (r.1.current_phase.toNat - 1) []
              rw [hcur]
              simp only [Int.toNat_ofNat]
              exact (List.mem_filter.mp hpf).1
          · intro _ pid hpid
            show pid ∈ (phases.take r.1.current_phase.toNat).flatten
            rw [hcur]
            simp only [Int.toNat_ofNat]
            rcases b4 pid hpid with h1 | h1
            · exact take_flatten_mono phases (hlau pid h1) (by omega)
            · rw [hchunks, hrunnable] at h1
              have hinphase := (List.mem_filter.mp h1).1
              rw [hget] at hinphase
              exact mem_get_take phases hlen1 hinphase (by omega)
          · intro _
            exact b6 hhalt
          · intro q hq
            exact b5 q hq
        · rw [if_neg hhalt]
          have hacc2 : ∀ pid ∈ r.2.1, rp pid = 0 := by
            intro pid hpid
            by_contra hrc
            exact hhalt (b2.mpr ⟨pid, hpid, hrc⟩)
          have hlau2 : ∀ pid ∈ r.2.1, pid ∈ (phases.take (idx + 1 - 1)).flatten := by
            intro pid hpid
            simp only [Nat.add_sub_cancel]
            rcases b4 pid hpid with h1 | h1
            · exact take_flatten_mono phases (hlau pid h1) (by omega)
            · rw [hchunks, hrunnable] at h1
              have hinphase := (List.mem_filter.mp h1).1
              rw [hget] at hinphase
              exact mem_get_take phases hlen1 hinphase (by omega)
          obtain ⟨c1, c2, c3, c4, c5, c6, c7⟩ := ih (idx + 1) r.1 r.2.1 r.2.2.1
            (by omega) hacc2 hlau2
          refine ⟨?_, c2, c3, c4, c5, ?_, ?_⟩
          · intro pid h
            exact c1 pid (b1 pid h)
          · intro q hq
            rw [c6 q hq]
            exact b5 q (fun h => hq (c1 q h))
          · rw [c7]
            exact b7

/-- C7: In `auto_execute`, whenever any item of the just-completed batch ends
with status "failed", the run stops advancing: `halted` is set exactly when
some launched prompt returned a non-zero code; on halt the phase pointer
`current_phase` stays at the failing phase (1-based, within bounds), that
phase contains a launched prompt whose executor returned non-zero and whose
recorded status is "failed", no prompt of phase `current_phase.toNat` or of
any later phase was ever launched (phase k+1 is never started while phase k
has a failed batch), the last persisted snapshot is exactly the returned
state (so the run is resumable from this point), and prompts that were never
launched keep their prior status. -/
theorem auto_execute_halts_on_failure (rp : String → Int) (mp : Nat)
    (st : ExecState) (hmp : 1 ≤ mp) (hnd : st.phases.flatten.Nodup) :
    ((auto_execute rp mp st).halted = true ↔
      ∃ pid ∈ (auto_execute rp mp st).launched, rp pid ≠ 0) ∧
    ((auto_execute rp mp st).halted = true →
      1 ≤ (auto_execute rp mp st).state.current_phase ∧
      (auto_execute rp mp st).state.current_phase.toNat ≤ st.phases.length ∧
      (∃ pid ∈ st.phases.getD
          ((auto_execute rp mp st).state.current_phase.toNat - 1) [],
        pid ∈ (auto_execute rp mp st).launched ∧ rp pid ≠ 0 ∧
        (auto_execute rp mp st).state.prompts.lookup pid = some "failed") ∧
      (∀ j, (auto_execute rp mp st).state.current_phase.toNat ≤ j →
        ∀ pid ∈ st.phases.getD j [],
          pid ∉ (auto_execute rp mp st).launched) ∧
      (auto_execute rp mp st).saves.getLast? =
        some (auto_execute rp mp st).state) ∧
    (∀ q, q ∉ (auto_execute rp mp st).launched →
      (auto_execute rp mp st).state.prompts.lookup q = st.prompts.lookup q) ∧
    (auto_execute rp mp st).state.phases = st.phases := by
  have hinv := autoLoop_spec rp mp st.phases hmp hnd (st.phases.length + 2)
    (max st.current_phase 1).toNat st [] []
    (by
      have h1 : (1 : Int) ≤ max st.current_phase 1 := le_max_right _ _
      omega)
    (by intro pid h; cases h)
    (by intro pid h; cases h)
  obtain ⟨_, c2, c3, c4, c5, c6, c7⟩ := hinv
  refine ⟨c2, ?_, c6, c7⟩
  intro hhalt
  obtain ⟨h1, h2, h3⟩ := c3 hhalt
  refine ⟨h1, h2, h3, ?_, c5 hhalt⟩
  intro j hj pid hpid hlaunch
  have hmemtake := c4 hhalt pid hlaunch
  have hjlt : j < st.phases.length := by
    by_contra hge
    rw [List.getD_eq_default _ _ (by omega)] at hpid
    cases hpid
  rw [List.getD_eq_get _ _ hjlt] at hpid
  exact take_flatten_not_in_later st.phases hnd hmemtake hj hjlt hpid

def rp7 : String → Int := fun pid => if pid = "002" then 1 else 0

def st7 : ExecState :=
  { prompts := [("001", "pending"), ("002", "pending"), ("003", "pending")]
    phases := [["001", "002"], ["003"]]
    current_phase := 0 }

theorem auto_execute_halts_on_failure_witness :
    1 ≤ 3 ∧ st7.phases.flatten.Nodup ∧
    (((auto_execute rp7 3 st7).halted = true ↔
      ∃ pid ∈ (auto_execute rp7 3 st7).launched, rp7 pid ≠ 0) ∧
    ((auto_execute rp7 3 st7).halted = true →
      1 ≤ (auto_execute rp7 3 st7).state.current_phase ∧
      (auto_execute rp7 3 st7).state.current_phase.toNat ≤ st7.phases.length ∧
      (∃ pid ∈ st7.phases.getD
          ((auto_execute rp7 3 st7).state.current_phase.toNat - 1) [],
        pid ∈ (auto_execute rp7 3 st7).launched ∧ rp7 pid ≠ 0 ∧
        (auto_execute rp7 3 st7).state.prompts.lookup pid = some "failed") ∧
      (∀ j, (auto_execute rp7 3 st7).state.current_phase.toNat ≤ j →
        ∀ pid ∈ st7.phases.getD j [],
          pid ∉ (auto_execute rp7 3 st7).launched) ∧
      (auto_execute rp7 3 st7).saves.getLast? =
        some (auto_execute rp7 3 st7).state) ∧
    (∀ q, q ∉ (auto_execute rp7 3 st7).launched →
      (auto_execute rp7 3 st7).state.prompts.lookup q = st7.prompts.lookup q) ∧
    (auto_execute rp7 3 st7).state.phases = st7.phases) :=
  ⟨by decide, by decide,
    auto_execute_halts_on_failure rp7 3 st7 (by decide) (by decide)⟩
